import Mathlib

/-!
Priority-annotated chunked output of pongo2 (fluxninja/priongo2)

A shallow embedding of `template.go`, `tags_priority.go`, `node_stateful.go`,
`nodes.go` and `nodes_wrapper.go`.

* Go `int` values are only stored and compared here, so they are `Int`.
* A `float64` is only stored and copied, so it is carried as its bit pattern.
* Pointers to `priorityEvaluator` objects are addresses into a `Heap`.
* A Go `map[int]int` is `none` when nil and `some kvs` once made.
* A call that the Go runtime aborts is reported as `Outcome.panicked`.
* Expressions are functions of the context; the section on expressions with effects
  repeats the priority node over expressions that also change a state.
-/

namespace Pongo2

/-! ## Values shared by all files -/

/-- Go `float64`, carried as its IEEE-754 bit pattern (the code never computes with it). -/
structure Float64 where
  bits : Nat
  deriving DecidableEq, Repr

/-- The fields of pongo2's `Error` that the files set. -/
structure Error where
  Filename : String := ""
  Sender : String
  OrigError : String
  deriving DecidableEq, Repr

/-- How a call returning `*Error` ends: `nil`, a non-nil error, or a runtime abort. -/
inductive Outcome where
  | nil
  | err (e : Error)
  | panicked (msg : String)
  deriving DecidableEq, Repr

/-- Go `map[int]int`: `none` is the nil map, `some kvs` a made map with distinct keys. -/
abbrev IntMap := Option (List (Int × Int))

/-- `m[k] = v` on a made map: the old entry of `k`, if any, is replaced. -/
def mapAssign (kvs : List (Int × Int)) (k v : Int) : List (Int × Int) :=
  (k, v) :: kvs.filter (fun e => e.1 != k)

/-- `v, ok := m[k]` on a made map. -/
def mapIndex (kvs : List (Int × Int)) (k : Int) : Option Int :=
  kvs.lookup k

/-- `v, ok := m[k]` on a possibly nil map: reading a nil map finds nothing. -/
def IntMap.index (m : IntMap) (k : Int) : Option Int :=
  match m with
  | none => none
  | some kvs => mapIndex kvs k

/-- The keys held by a possibly nil map. -/
def IntMap.keys (m : IntMap) : List Int :=
  match m with
  | none => []
  | some kvs => kvs.map Prod.fst

/-! ## template.go: chunk model -/

structure TrackingIndex where
  Index : Int
  Set : Bool
  deriving DecidableEq, Repr

structure PriorityDetails where
  Value : Float64
  ClauseIndex : Int
  LoopStack : IntMap
  deriving DecidableEq, Repr

structure Chunk where
  Value : String
  Priorities : List PriorityDetails
  TrackingIndex : TrackingIndex
  deriving DecidableEq, Repr

abbrev Chunks := List Chunk

/-- Go `chunkWriter`; the zero value is the fresh writer. -/
structure chunkWriter where
  chunks : Chunks
  priorities : List PriorityDetails
  trackingIndex : TrackingIndex
  deriving DecidableEq, Repr

/-- The zero value `chunkWriter{}`. -/
def chunkWriter.fresh : chunkWriter :=
  { chunks := [], priorities := [], trackingIndex := { Index := 0, Set := false } }

/-- `func (cw *chunkWriter) SetTrackingIndex(i int)` -/
def chunkWriter.SetTrackingIndex (cw : chunkWriter) (i : Int) : chunkWriter :=
  { cw with trackingIndex := { Index := i, Set := true } }

/-- `func (cw *chunkWriter) UnsetTrackingIndex()` -/
def chunkWriter.UnsetTrackingIndex (cw : chunkWriter) : chunkWriter :=
  { cw with trackingIndex := { cw.trackingIndex with Set := false } }

/-- `func (cw *chunkWriter) Chunks() Chunks` -/
def chunkWriter.Chunks (cw : chunkWriter) : Chunks :=
  cw.chunks

/-- `func (cw *chunkWriter) WriteChunk(s string)` -/
def chunkWriter.WriteChunk (cw : chunkWriter) (s : String) : chunkWriter :=
  { cw with
    chunks := cw.chunks ++
      [{ Value := s, Priorities := cw.priorities, TrackingIndex := cw.trackingIndex }] }

/-! ## Execution context and expressions (declared outside the five files) -/

/-- One loop frame: the fields of `tagForLoopInformation` read by `SetChunkContext`.
The `Parentloop` link is the tail of the list holding the frame. -/
structure tagForLoopInformation where
  LoopIndex : Int
  Counter0 : Int
  deriving DecidableEq, Repr

/-- Modelled from the spec: the result of the expression subsystem, whose declaration
(`Value`, with its `Float()` method) is outside the files: "evaluate against a
context, yielding a number". -/
structure Value where
  number : Float64
  deriving DecidableEq, Repr

/-- `func (v *Value) Float() float64` -/
def Value.Float (v : Value) : Float64 :=
  v.number

/-- The parts of `ExecutionContext` the files read: the public variables and the
chain `ctx.Private["forloop"]`, innermost frame first (`[]` when the entry is nil). -/
structure ExecutionContext where
  Public : List (String × Value)
  forloop : List tagForLoopInformation
  deriving DecidableEq, Repr

/-- `IEvaluator.Evaluate(ctx) (*Value, *Error)` of the expression subsystem. -/
abbrev IEvaluator := ExecutionContext → Except Error Value

/-! ## tags_priority.go: priorityEvaluator -/

structure priorityEvaluator where
  priority : Float64
  evaluator : IEvaluator
  evaluated : Bool
  clauseIndex : Int
  loopStack : List Int

/-- The error built by `Priority()` on an unevaluated evaluator. -/
def priorityNotEvaluated : Error :=
  { Sender := "priority", OrigError := "Priority not evaluated yet" }

/-- `func (pe *priorityEvaluator) Priority() (float64, *Error)` -/
def priorityEvaluator.Priority (pe : priorityEvaluator) : Float64 × Option Error :=
  if !pe.evaluated then
    (⟨0⟩, some priorityNotEvaluated)
  else
    (pe.priority, none)

/-- `func (pe *priorityEvaluator) Evaluate(ctx *ExecutionContext) *Error`:
the evaluator after the call and the returned error. -/
def priorityEvaluator.Evaluate (pe : priorityEvaluator) (ctx : ExecutionContext) :
    priorityEvaluator × Option Error :=
  match pe.evaluator ctx with
  | .error err => (pe, some err)
  | .ok val => ({ pe with priority := val.Float, evaluated := true }, none)

/-- `func (pe *priorityEvaluator) SetClauseIndex(i int)` -/
def priorityEvaluator.SetClauseIndex (pe : priorityEvaluator) (i : Int) : priorityEvaluator :=
  { pe with clauseIndex := i }

/-- `func (pe *priorityEvaluator) ClauseIndex() int` -/
def priorityEvaluator.ClauseIndex (pe : priorityEvaluator) : Int :=
  pe.clauseIndex

/-- `func (pe *priorityEvaluator) SetLoopStack(loopStack []int)` -/
def priorityEvaluator.SetLoopStack (pe : priorityEvaluator) (loopStack : List Int) :
    priorityEvaluator :=
  { pe with loopStack := loopStack }

/-- `func (pe *priorityEvaluator) LoopStack() []int` -/
def priorityEvaluator.LoopStack (pe : priorityEvaluator) : List Int :=
  pe.loopStack

/-- The evaluator built by `tagPriorityParser`: `&priorityEvaluator{evaluator: pEval}`. -/
def priorityEvaluator.new (pEval : IEvaluator) : priorityEvaluator :=
  { priority := ⟨0⟩, evaluator := pEval, evaluated := false, clauseIndex := 0, loopStack := [] }

/-- The evaluator objects of a compiled template, by address. -/
abbrev Heap := Nat → priorityEvaluator

/-! ## node_stateful.go -/

structure Priority where
  Value : Float64
  ClauseIndex : Int
  LoopStack : List Int
  deriving DecidableEq, Repr

/-- The loop of `PriorityStack` over the captured evaluators: the entries filled so far
are returned only when every evaluator answers. -/
def PriorityStack.loop (heap : Heap) : List Nat → List Priority × Option Error
  | [] => ([], none)
  | p :: rest =>
    match (heap p).Priority with
    | (_, some err) => ([], some err)
    | (priorityValue, none) =>
      match PriorityStack.loop heap rest with
      | (_, some err) => ([], some err)
      | (priorityStack, none) =>
        ({ ClauseIndex := (heap p).ClauseIndex,
           Value := priorityValue,
           LoopStack := (heap p).LoopStack } :: priorityStack, none)

/-! ## template.go: the two writers -/

/-- The UTF-8 bytes of a string: Go `[]byte(s)`. -/
def stringBytes (s : String) : List UInt8 :=
  s.data.flatMap String.utf8EncodeChar

/-- Go `templateWriterBuffer`: `b` holds the bytes accumulated in the `bytes.Buffer`. -/
structure templateWriterBuffer where
  b : List UInt8
  chunkWriter : chunkWriter
  deriving DecidableEq, Repr

/-- The writer `&templateWriterBuffer{b: buffer}` over an empty buffer. -/
def templateWriterBuffer.fresh : templateWriterBuffer :=
  { b := [], chunkWriter := chunkWriter.fresh }

/-- `func (tw *templateWriterBuffer) WriteString(s string) (int, error)`:
the writer after the call and the byte count returned (the error is always nil). -/
def templateWriterBuffer.WriteString (tw : templateWriterBuffer) (s : String) :
    templateWriterBuffer × Nat :=
  let cw := tw.chunkWriter.WriteChunk s
  ({ b := tw.b ++ stringBytes s, chunkWriter := cw }, (stringBytes s).length)

/-- `func (tw *templateWriterBuffer) Write(b []byte) (int, error)` -/
def templateWriterBuffer.Write (tw : templateWriterBuffer) (b : List UInt8) :
    templateWriterBuffer × Nat :=
  ({ tw with b := tw.b ++ b }, b.length)

/-- Go `templateWriterIO` over a sink that accepts every byte: `w` holds the bytes the
sink has received. -/
structure templateWriterIO where
  w : List UInt8
  chunkWriter : chunkWriter
  deriving DecidableEq, Repr

/-- `func (tw *templateWriterIO) WriteString(s string) (int, error)` -/
def templateWriterIO.WriteString (tw : templateWriterIO) (s : String) :
    templateWriterIO × Nat :=
  let cw := tw.chunkWriter.WriteChunk s
  ({ w := tw.w ++ stringBytes s, chunkWriter := cw }, (stringBytes s).length)

/-- `func (tw *templateWriterIO) Write(b []byte) (int, error)` -/
def templateWriterIO.Write (tw : templateWriterIO) (b : List UInt8) :
    templateWriterIO × Nat :=
  ({ tw with w := tw.w ++ b }, b.length)

/-- The implementations of the `TemplateWriter` interface. -/
inductive TemplateWriter where
  | unbuffered (tw : templateWriterIO)
  | buffered (tw : templateWriterBuffer)
  deriving DecidableEq, Repr

/-- The embedded `chunkWriter` of a writer. -/
def TemplateWriter.chunkWriter : TemplateWriter → chunkWriter
  | .unbuffered tw => tw.chunkWriter
  | .buffered tw => tw.chunkWriter

/-- Replaces the embedded `chunkWriter` of a writer. -/
def TemplateWriter.withChunkWriter : TemplateWriter → Pongo2.chunkWriter → TemplateWriter
  | .unbuffered tw, cw => .unbuffered { tw with chunkWriter := cw }
  | .buffered tw, cw => .buffered { tw with chunkWriter := cw }

/-- `TemplateWriter.WriteString` -/
def TemplateWriter.WriteString : TemplateWriter → String → TemplateWriter × Nat
  | .unbuffered tw, s => (.unbuffered (tw.WriteString s).1, (tw.WriteString s).2)
  | .buffered tw, s => (.buffered (tw.WriteString s).1, (tw.WriteString s).2)

/-- `TemplateWriter.Write` -/
def TemplateWriter.Write : TemplateWriter → List UInt8 → TemplateWriter × Nat
  | .unbuffered tw, b => (.unbuffered (tw.Write b).1, (tw.Write b).2)
  | .buffered tw, b => (.buffered (tw.Write b).1, (tw.Write b).2)

/-- `TemplateWriter.Chunks` -/
def TemplateWriter.Chunks (w : TemplateWriter) : Chunks :=
  w.chunkWriter.Chunks

/-! ## Nodes -/

/-- What a render mutates: the evaluator objects of the compiled tree and the writer. -/
structure World where
  heap : Heap
  writer : TemplateWriter

/-- The `INode` interface, as its method `Execute(*ExecutionContext, TemplateWriter) *Error`. -/
abbrev INode := ExecutionContext → World → Outcome × World

/-- Go `nodeStateful`: the embedded `INode` and the addresses of the captured evaluators,
outermost first. -/
structure nodeStateful where
  INode : INode
  priorityEvalStack : List Nat

/-- `func (n *nodeStateful) PriorityStack() ([]Priority, *Error)` -/
def nodeStateful.PriorityStack (n : nodeStateful) (heap : Heap) : List Priority × Option Error :=
  PriorityStack.loop heap n.priorityEvalStack

/-- `loopPositions` after the walk over the chain `ctx.Private["forloop"]`, innermost
frame first. -/
def loopPositions (ctx : ExecutionContext) : List (Int × Int) :=
  ctx.forloop.foldl (fun m forLoop => mapAssign m forLoop.LoopIndex forLoop.Counter0) []

/-- The inner loop of `SetChunkContext` over one entry's `LoopStack`: assigning into the
nil `LoopStack` map of the fresh `PriorityDetails` is a runtime abort. -/
def SetChunkContext.resolve (positions : List (Int × Int)) :
    PriorityDetails → List Int → Outcome × PriorityDetails
  | pd, [] => (.nil, pd)
  | pd, l :: rest =>
    match mapIndex positions l with
    | some pos =>
      match pd.LoopStack with
      | none => (.panicked "assignment to entry in nil map", pd)
      | some kvs => SetChunkContext.resolve positions
          { pd with LoopStack := some (mapAssign kvs l pos) } rest
    | none =>
      (.err { Sender := "SetChunkContext",
              OrigError := "Loop iteration position not found for loop index " ++ toString l },
       pd)

/-- The outer loop of `SetChunkContext` over the priority stack. -/
def SetChunkContext.loop (positions : List (Int × Int)) :
    chunkWriter → List Priority → Outcome × chunkWriter
  | cw, [] => (.nil, cw)
  | cw, p :: rest =>
    match SetChunkContext.resolve positions
        { Value := p.Value, ClauseIndex := p.ClauseIndex, LoopStack := none } p.LoopStack with
    | (.nil, pd) =>
      SetChunkContext.loop positions { cw with priorities := cw.priorities ++ [pd] } rest
    | (out, _) => (out, cw)

/-- `func (cw *chunkWriter) SetChunkContext(ctx *ExecutionContext, nodeStateful INodeStateful) *Error`:
how the call ends and the writer it leaves. -/
def chunkWriter.SetChunkContext (cw : chunkWriter) (heap : Heap) (ctx : ExecutionContext)
    (n : nodeStateful) : Outcome × chunkWriter :=
  let cw := { cw with priorities := [] }
  match n.PriorityStack heap with
  | (_, some err) => (.err err, cw)
  | (priorityStack, none) => SetChunkContext.loop (loopPositions ctx) cw priorityStack

/-- `TemplateWriter.SetChunkContext`, promoted from the embedded `chunkWriter`. -/
def TemplateWriter.SetChunkContext (w : TemplateWriter) (heap : Heap) (ctx : ExecutionContext)
    (n : nodeStateful) : Outcome × TemplateWriter :=
  let r := w.chunkWriter.SetChunkContext heap ctx n
  (r.1, w.withChunkWriter r.2)

/-! ## nodes.go, nodes_wrapper.go, tags_priority.go: tree walk -/

/-- The root document. -/
structure nodeDocument where
  Nodes : List nodeStateful

/-- The loop of `nodeDocument.Execute` over `doc.Nodes`. -/
def nodeDocument.Execute.loop (ctx : ExecutionContext) : List nodeStateful → World → Outcome × World
  | [], w => (.nil, w)
  | n :: rest, w =>
    match w.writer.SetChunkContext w.heap ctx n with
    | (.nil, writer) =>
      match n.INode ctx { w with writer := writer } with
      | (.nil, w2) => nodeDocument.Execute.loop ctx rest w2
      | (out, w2) => (out, w2)
    | (out, writer) => (out, { w with writer := writer })

/-- `func (doc *nodeDocument) Execute(ctx *ExecutionContext, writer TemplateWriter) *Error` -/
def nodeDocument.Execute (doc : nodeDocument) (ctx : ExecutionContext) (w : World) :
    Outcome × World :=
  nodeDocument.Execute.loop ctx doc.Nodes w

structure NodeWrapper where
  Endtag : String
  nodes : List nodeStateful

/-- The loop of `NodeWrapper.Execute` over `wrapper.nodes`. -/
def NodeWrapper.Execute.loop (ctx : ExecutionContext) : List nodeStateful → World → Outcome × World
  | [], w => (.nil, w)
  | n :: rest, w =>
    match w.writer.SetChunkContext w.heap ctx n with
    | (.nil, writer) =>
      match n.INode ctx { w with writer := writer } with
      | (.nil, w2) => NodeWrapper.Execute.loop ctx rest w2
      | (out, w2) => (out, w2)
    | (out, writer) => (out, { w with writer := writer })

/-- `func (wrapper *NodeWrapper) Execute(ctx *ExecutionContext, writer TemplateWriter) *Error` -/
def NodeWrapper.Execute (wrapper : NodeWrapper) (ctx : ExecutionContext) (w : World) :
    Outcome × World :=
  NodeWrapper.Execute.loop ctx wrapper.nodes w

/-- Go `tagPriorityNode`; `priorityEvaluator` is the address of the scope's evaluator. -/
structure tagPriorityNode where
  wrapper : NodeWrapper
  priorityEvaluator : Nat

/-- `func (node *tagPriorityNode) Execute(ctx *ExecutionContext, writer TemplateWriter) *Error` -/
def tagPriorityNode.Execute (node : tagPriorityNode) : INode := fun ctx w =>
  match (w.heap node.priorityEvaluator).Evaluate ctx with
  | (pe, some err) =>
    (.err err, { w with heap := Function.update w.heap node.priorityEvaluator pe })
  | (pe, none) =>
    node.wrapper.Execute ctx { w with heap := Function.update w.heap node.priorityEvaluator pe }

/-! ## template.go: render driver -/

/-- Go `Context` (`map[string]interface{}`), as its entries. -/
abbrev Context := List (String × Value)

/-- `func (c Context) Update(other Context) Context`: entries of `other` win. -/
def Context.Update (c other : Context) : Context :=
  other ++ c.filter (fun e => !(other.map Prod.fst).contains e.1)

/-- The fields of `Template` read by a render. The `parent` links are flattened:
`parents` holds the roots of `tpl.parent`, `tpl.parent.parent`, ..., nearest first.
`Globals` is `tpl.set.Globals`, `exportedMacros` the keys of `tpl.exportedMacros`. -/
structure Template where
  name : String
  Globals : Context
  exportedMacros : List String
  root : nodeDocument
  parents : List nodeDocument

/-- The root of the template reached by `for parent.parent != nil { parent = parent.parent }`. -/
def Template.topRoot (tpl : Template) : nodeDocument :=
  tpl.parents.getLast?.getD tpl.root

/-- `func (tpl *Template) newContextForExecution(context Context) (*Template, *ExecutionContext, error)`.
The token trimming at its start rewrites `tpl.tokens` only, which a render does not read.
`check` is `Context.checkForValidIdentifiers`, declared outside the files; `context` is
`none` for a nil context. The new execution context has no loop frame. -/
def Template.newContextForExecution (tpl : Template) (check : Context → Option Error)
    (context : Option Context) : nodeDocument × Except Error ExecutionContext :=
  let parent := tpl.topRoot
  let newContext : Context :=
    match context with
    | none => Context.Update [] tpl.Globals
    | some c => Context.Update (Context.Update [] tpl.Globals) c
  let ctx : ExecutionContext := { Public := newContext, forloop := [] }
  match context with
  | none => (parent, .ok ctx)
  | some _ =>
    if newContext.length > 0 then
      match check newContext with
      | some err => (parent, .error err)
      | none =>
        match newContext.find? (fun e => tpl.exportedMacros.contains e.1) with
        | some e =>
          (parent, .error
            { Filename := tpl.name, Sender := "execution",
              OrigError := "context key name \x27" ++ e.1 ++ "\x27 clashes with macro \x27"
                ++ e.1 ++ "\x27" })
        | none => (parent, .ok ctx)
    else (parent, .ok ctx)

/-- `func (tpl *Template) execute(context Context, writer TemplateWriter) error` -/
def Template.execute (tpl : Template) (check : Context → Option Error)
    (context : Option Context) (w : World) : Outcome × World :=
  match tpl.newContextForExecution check context with
  | (_, .error err) => (.err err, w)
  | (parent, .ok ctx) => parent.Execute ctx w

/-- `TemplateWriter.SetTrackingIndex`, promoted from the embedded `chunkWriter`. -/
def TemplateWriter.SetTrackingIndex (w : TemplateWriter) (i : Int) : TemplateWriter :=
  w.withChunkWriter (w.chunkWriter.SetTrackingIndex i)

/-- `TemplateWriter.UnsetTrackingIndex`, promoted from the embedded `chunkWriter`. -/
def TemplateWriter.UnsetTrackingIndex (w : TemplateWriter) : TemplateWriter :=
  w.withChunkWriter w.chunkWriter.UnsetTrackingIndex

/-- The bytes a writer has passed on: those received by the sink of a `templateWriterIO`,
those accumulated in the buffer of a `templateWriterBuffer`. -/
def TemplateWriter.bytes : TemplateWriter → List UInt8
  | .unbuffered tw => tw.w
  | .buffered tw => tw.b

/-- The writer `&templateWriterIO{w: writer}` over a sink that has received nothing. -/
def templateWriterIO.fresh : templateWriterIO :=
  { w := [], chunkWriter := chunkWriter.fresh }

/-- `func (tpl *Template) newTemplateWriterAndExecute(context Context, writer io.Writer) error`:
`writer` holds the bytes the caller's sink has received. -/
def Template.newTemplateWriterAndExecute (tpl : Template) (check : Context → Option Error)
    (context : Option Context) (heap : Heap) (writer : List UInt8) : Outcome × World :=
  tpl.execute check context
    { heap := heap, writer := .unbuffered { w := writer, chunkWriter := chunkWriter.fresh } }

/-- `func (tpl *Template) newBufferAndExecute(context Context) (*bytes.Buffer, Chunks, error)`:
the returned buffer (`none` for nil), chunks (`[]` for nil) and error, and the evaluators
left behind. The capacity hint of the buffer has no effect on its contents. -/
def Template.newBufferAndExecute (tpl : Template) (check : Context → Option Error)
    (context : Option Context) (heap : Heap) :
    (Option (List UInt8) × Chunks × Outcome) × Heap :=
  match tpl.execute check context
      { heap := heap, writer := .buffered templateWriterBuffer.fresh } with
  | (.nil, w) => ((some w.writer.bytes, w.writer.Chunks, .nil), w.heap)
  | (out, w) => ((none, [], out), w.heap)

/-- `func (tpl *Template) ExecuteWriter(context Context, writer io.Writer) error`:
the returned error and the bytes the caller's sink holds, and the evaluators left behind. -/
def Template.ExecuteWriter (tpl : Template) (check : Context → Option Error)
    (context : Option Context) (heap : Heap) (writer : List UInt8) :
    (Outcome × List UInt8) × Heap :=
  match tpl.newBufferAndExecute check context heap with
  | ((buf, _, .nil), h) => ((.nil, writer ++ buf.getD []), h)
  | ((_, _, out), h) => ((out, writer), h)

/-- `func (tpl *Template) ExecuteWriterUnbuffered(context Context, writer io.Writer) error` -/
def Template.ExecuteWriterUnbuffered (tpl : Template) (check : Context → Option Error)
    (context : Option Context) (heap : Heap) (writer : List UInt8) :
    (Outcome × List UInt8) × Heap :=
  let r := tpl.newTemplateWriterAndExecute check context heap writer
  ((r.1, r.2.writer.bytes), r.2.heap)

/-- `func (tpl *Template) ExecuteBytes(context Context) ([]byte, error)` -/
def Template.ExecuteBytes (tpl : Template) (check : Context → Option Error)
    (context : Option Context) (heap : Heap) : (List UInt8 × Outcome) × Heap :=
  match tpl.newBufferAndExecute check context heap with
  | ((buffer, _, .nil), h) => ((buffer.getD [], .nil), h)
  | ((_, _, out), h) => (([], out), h)

/-- `func (tpl *Template) ExecuteChunks(context Context) (Chunks, error)` -/
def Template.ExecuteChunks (tpl : Template) (check : Context → Option Error)
    (context : Option Context) (heap : Heap) : (Chunks × Outcome) × Heap :=
  match tpl.newBufferAndExecute check context heap with
  | ((_, chunks, .nil), h) => ((chunks, .nil), h)
  | ((_, _, out), h) => (([], out), h)

/-- `func (tpl *Template) Execute(context Context) (string, error)`: the returned string
as its bytes. -/
def Template.Execute (tpl : Template) (check : Context → Option Error)
    (context : Option Context) (heap : Heap) : (List UInt8 × Outcome) × Heap :=
  match tpl.newBufferAndExecute check context heap with
  | ((buffer, _, .nil), h) => ((buffer.getD [], .nil), h)
  | ((_, _, out), h) => (([], out), h)

/-! ## Expressions with effects

`IEvaluator.Evaluate` is an interface method of the expression subsystem: evaluating an
expression may run functions of the context and change state outside the evaluator. The
definitions of this section repeat the evaluator, the stateful node, the wrapper and the
priority node over expressions that thread such a state `σ`, so that how often an
expression is evaluated shows in the result. -/

namespace Effectful

/-- `IEvaluator.Evaluate(ctx) (*Value, *Error)` of an expression that reads and changes
the state `σ`. -/
abbrev IEvaluator (σ : Type) := ExecutionContext → σ → Except Error Value × σ

/-- Go `priorityEvaluator` over such an expression. -/
structure priorityEvaluator (σ : Type) where
  priority : Float64
  evaluator : IEvaluator σ
  evaluated : Bool
  clauseIndex : Int
  loopStack : List Int

/-- `func (pe *priorityEvaluator) Priority() (float64, *Error)` -/
def priorityEvaluator.Priority {σ : Type} (pe : priorityEvaluator σ) : Float64 × Option Error :=
  if !pe.evaluated then
    (⟨0⟩, some priorityNotEvaluated)
  else
    (pe.priority, none)

/-- `func (pe *priorityEvaluator) Evaluate(ctx *ExecutionContext) *Error`: the evaluator
after the call and the returned error, and the state the expression leaves. -/
def priorityEvaluator.Evaluate {σ : Type} (pe : priorityEvaluator σ) (ctx : ExecutionContext)
    (s : σ) : (priorityEvaluator σ × Option Error) × σ :=
  match pe.evaluator ctx s with
  | (.error err, s2) => ((pe, some err), s2)
  | (.ok val, s2) => (({ pe with priority := val.Float, evaluated := true }, none), s2)

/-- `func (pe *priorityEvaluator) ClauseIndex() int` -/
def priorityEvaluator.ClauseIndex {σ : Type} (pe : priorityEvaluator σ) : Int :=
  pe.clauseIndex

/-- `func (pe *priorityEvaluator) LoopStack() []int` -/
def priorityEvaluator.LoopStack {σ : Type} (pe : priorityEvaluator σ) : List Int :=
  pe.loopStack

/-- The evaluator objects of a compiled template, by address. -/
abbrev Heap (σ : Type) := Nat → priorityEvaluator σ

/-- The loop of `PriorityStack` over the captured evaluators. -/
def PriorityStack.loop {σ : Type} (heap : Heap σ) : List Nat → List Priority × Option Error
  | [] => ([], none)
  | p :: rest =>
    match (heap p).Priority with
    | (_, some err) => ([], some err)
    | (priorityValue, none) =>
      match PriorityStack.loop heap rest with
      | (_, some err) => ([], some err)
      | (priorityStack, none) =>
        ({ ClauseIndex := (heap p).ClauseIndex,
           Value := priorityValue,
           LoopStack := (heap p).LoopStack } :: priorityStack, none)

/-- What a render mutates: the evaluators, the writer, and the state `ext` that
expressions reach. -/
structure World (σ : Type) where
  heap : Heap σ
  writer : TemplateWriter
  ext : σ

/-- The `INode` interface, as its method `Execute(*ExecutionContext, TemplateWriter) *Error`. -/
abbrev INode (σ : Type) := ExecutionContext → World σ → Outcome × World σ

/-- Go `nodeStateful`. -/
structure nodeStateful (σ : Type) where
  INode : INode σ
  priorityEvalStack : List Nat

/-- `func (n *nodeStateful) PriorityStack() ([]Priority, *Error)` -/
def nodeStateful.PriorityStack {σ : Type} (n : nodeStateful σ) (heap : Heap σ) :
    List Priority × Option Error :=
  PriorityStack.loop heap n.priorityEvalStack

/-- `func (cw *chunkWriter) SetChunkContext(ctx *ExecutionContext, nodeStateful INodeStateful) *Error` -/
def chunkWriter.SetChunkContext {σ : Type} (cw : Pongo2.chunkWriter) (heap : Heap σ)
    (ctx : ExecutionContext) (n : nodeStateful σ) : Outcome × Pongo2.chunkWriter :=
  let cw := { cw with priorities := [] }
  match n.PriorityStack heap with
  | (_, some err) => (.err err, cw)
  | (priorityStack, none) => SetChunkContext.loop (loopPositions ctx) cw priorityStack

/-- `TemplateWriter.SetChunkContext`, promoted from the embedded `chunkWriter`. -/
def TemplateWriter.SetChunkContext {σ : Type} (w : Pongo2.TemplateWriter) (heap : Heap σ)
    (ctx : ExecutionContext) (n : nodeStateful σ) : Outcome × Pongo2.TemplateWriter :=
  let r := Effectful.chunkWriter.SetChunkContext w.chunkWriter heap ctx n
  (r.1, w.withChunkWriter r.2)

structure NodeWrapper (σ : Type) where
  Endtag : String
  nodes : List (nodeStateful σ)

/-- The loop of `NodeWrapper.Execute` over `wrapper.nodes`. -/
def NodeWrapper.Execute.loop {σ : Type} (ctx : ExecutionContext) :
    List (nodeStateful σ) → World σ → Outcome × World σ
  | [], w => (.nil, w)
  | n :: rest, w =>
    match Effectful.TemplateWriter.SetChunkContext w.writer w.heap ctx n with
    | (.nil, writer) =>
      match n.INode ctx { w with writer := writer } with
      | (.nil, w2) => NodeWrapper.Execute.loop ctx rest w2
      | (out, w2) => (out, w2)
    | (out, writer) => (out, { w with writer := writer })

/-- `func (wrapper *NodeWrapper) Execute(ctx *ExecutionContext, writer TemplateWriter) *Error` -/
def NodeWrapper.Execute {σ : Type} (wrapper : NodeWrapper σ) (ctx : ExecutionContext)
    (w : World σ) : Outcome × World σ :=
  NodeWrapper.Execute.loop ctx wrapper.nodes w

/-- Go `tagPriorityNode`; `priorityEvaluator` is the address of the scope's evaluator. -/
structure tagPriorityNode (σ : Type) where
  wrapper : NodeWrapper σ
  priorityEvaluator : Nat

/-- `func (node *tagPriorityNode) Execute(ctx *ExecutionContext, writer TemplateWriter) *Error` -/
def tagPriorityNode.Execute {σ : Type} (node : tagPriorityNode σ) : INode σ := fun ctx w =>
  match (w.heap node.priorityEvaluator).Evaluate ctx w.ext with
  | ((pe, some err), s2) =>
    (.err err, { w with heap := Function.update w.heap node.priorityEvaluator pe, ext := s2 })
  | ((pe, none), s2) =>
    node.wrapper.Execute ctx
      { w with heap := Function.update w.heap node.priorityEvaluator pe, ext := s2 }

end Effectful

/-! ## Call sequences -/

/-- The calls a node can make on a `chunkWriter` between two `SetChunkContext` calls. -/
inductive WriterOp where
  | WriteChunk (s : String)
  | SetTrackingIndex (i : Int)
  | UnsetTrackingIndex
  deriving DecidableEq, Repr

/-- Whether the call is a `WriteChunk`. -/
def WriterOp.isWrite : WriterOp → Bool
  | .WriteChunk _ => true
  | _ => false

/-- One call on the writer. -/
def chunkWriter.apply (cw : chunkWriter) : WriterOp → chunkWriter
  | .WriteChunk s => cw.WriteChunk s
  | .SetTrackingIndex i => cw.SetTrackingIndex i
  | .UnsetTrackingIndex => cw.UnsetTrackingIndex

/-- A sequence of calls on the writer, first call first. -/
def chunkWriter.run (cw : chunkWriter) (ops : List WriterOp) : chunkWriter :=
  ops.foldl chunkWriter.apply cw

/-- The output calls of the `TemplateWriter` interface. -/
inductive OutputOp where
  | WriteString (s : String)
  | Write (b : List UInt8)
  deriving DecidableEq, Repr

/-- One output call on the buffered writer. -/
def templateWriterBuffer.apply (tw : templateWriterBuffer) : OutputOp → templateWriterBuffer
  | .WriteString s => (tw.WriteString s).1
  | .Write b => (tw.Write b).1

/-- A sequence of output calls on the buffered writer, first call first. -/
def templateWriterBuffer.run (tw : templateWriterBuffer) (ops : List OutputOp) :
    templateWriterBuffer :=
  ops.foldl templateWriterBuffer.apply tw

/-- The bytes of the chunks' texts, concatenated in order. -/
def Chunks.bytes (cs : Chunks) : List UInt8 :=
  cs.flatMap (fun c => stringBytes c.Value)

/-- The bytes an output call hands to the writer. -/
def OutputOp.bytes : OutputOp → List UInt8
  | .WriteString s => stringBytes s
  | .Write b => b

/-- The bytes of the chunk an output call records: only `WriteString` calls `WriteChunk`. -/
def OutputOp.chunkBytes : OutputOp → List UInt8
  | .WriteString s => stringBytes s
  | .Write _ => []

/-- The evaluator after the `Evaluate` calls with the given contexts, first call first. -/
def priorityEvaluator.EvaluateAll (pe : priorityEvaluator) (calls : List ExecutionContext) :
    priorityEvaluator :=
  calls.foldl (fun e ctx => (e.Evaluate ctx).1) pe

/-- The evaluator objects left by successive renders of one compiled template through
`Template.execute`, each over a new `templateWriterBuffer`; nothing but the renders
themselves touches the evaluators between two renders. -/
def Template.renders (tpl : Template) (check : Context → Option Error) :
    List (Option Context) → Heap → Heap
  | [], heap => heap
  | context :: rest, heap =>
    Template.renders tpl check rest
      (tpl.execute check context
        { heap := heap, writer := .buffered templateWriterBuffer.fresh }).2.heap

/-- The calls of the `TemplateWriter` interface that change a writer; a `SetChunkContext`
call comes with the evaluators as they are when it is made. -/
inductive TemplateWriterOp where
  | WriteString (s : String)
  | Write (b : List UInt8)
  | SetChunkContext (heap : Heap) (ctx : ExecutionContext) (n : nodeStateful)
  | SetTrackingIndex (i : Int)
  | UnsetTrackingIndex

/-- A sequence of interface calls on a writer, first call first; the calls after a
`SetChunkContext` that the runtime aborts are not made. -/
def TemplateWriter.run : TemplateWriter → List TemplateWriterOp → TemplateWriter
  | w, [] => w
  | w, .WriteString s :: rest => TemplateWriter.run (w.WriteString s).1 rest
  | w, .Write b :: rest => TemplateWriter.run (w.Write b).1 rest
  | w, .SetChunkContext heap ctx n :: rest =>
    match w.SetChunkContext heap ctx n with
    | (.panicked _, w2) => w2
    | (_, w2) => TemplateWriter.run w2 rest
  | w, .SetTrackingIndex i :: rest => TemplateWriter.run (w.SetTrackingIndex i) rest
  | w, .UnsetTrackingIndex :: rest => TemplateWriter.run w.UnsetTrackingIndex rest

/-- The buffered writer holding what a writer holds: the abstraction that relates a
`templateWriterIO` over an accepting sink to a `templateWriterBuffer`. -/
def TemplateWriter.toBuffered : TemplateWriter → TemplateWriter
  | .unbuffered tw => .buffered { b := tw.w, chunkWriter := tw.chunkWriter }
  | .buffered tw => .buffered tw

/-- One step of the tree walk as the spec words it: `SetChunkContext(ctx, node)`
immediately followed by `node.Execute(ctx, writer)`, the second only after the first
returned nil. -/
def nodeStep (ctx : ExecutionContext) (n : nodeStateful) (w : World) : Outcome × World :=
  match w.writer.SetChunkContext w.heap ctx n with
  | (.nil, writer) => n.INode ctx { w with writer := writer }
  | (out, writer) => (out, { w with writer := writer })

/-- The left-to-right fold of the steps over a node list. -/
def stepsFold (ctx : ExecutionContext) (nodes : List nodeStateful) (w : World) : World :=
  nodes.foldl (fun w n => (nodeStep ctx n w).2) w

/-- Every step over the node list succeeds: each `SetChunkContext` and each `Execute`
returns nil. -/
def stepsSucceed (ctx : ExecutionContext) : List nodeStateful → World → Prop
  | [], _ => True
  | n :: rest, w => (nodeStep ctx n w).1 = .nil ∧ stepsSucceed ctx rest (nodeStep ctx n w).2

/-- The evaluators of `h2` have the clause indexes and loop-id lists of those of `h1`. -/
def keepsScopes (h1 h2 : Heap) : Prop :=
  ∀ a, (h2 a).clauseIndex = (h1 a).clauseIndex ∧ (h2 a).loopStack = (h1 a).loopStack

/-- The `PriorityDetails` that `SetChunkContext` builds for an entry before any loop id
is resolved. -/
def Priority.details (p : Priority) : PriorityDetails :=
  { Value := p.Value, ClauseIndex := p.ClauseIndex, LoopStack := none }

/-! ## Sample inputs -/

/-- An expression that yields the number with bit pattern `v` in every context. -/
def constantExpr (v : Nat) : IEvaluator := fun _ => .ok ⟨⟨v⟩⟩

/-- An evaluated evaluator of value `5` whose scope lies in loop `7`. -/
def evaluatorInLoop7 : priorityEvaluator :=
  { priority := ⟨5⟩, evaluator := constantExpr 5, evaluated := true, clauseIndex := 0,
    loopStack := [7] }

/-- An evaluated evaluator of value `5` whose scope lies in loops `1` and `2`. -/
def evaluatorInLoops12 : priorityEvaluator :=
  { priority := ⟨5⟩, evaluator := constantExpr 5, evaluated := true, clauseIndex := 0,
    loopStack := [1, 2] }

/-- A node that writes nothing and captured the evaluator at address `0`. -/
def nodeCapturing0 : nodeStateful :=
  { INode := fun _ w => (.nil, w), priorityEvalStack := [0] }

/-- A context inside the third iteration of loop `7`. -/
def ctxLoop7 : ExecutionContext :=
  { Public := [], forloop := [{ LoopIndex := 7, Counter0 := 2 }] }

/-- A context inside the first iteration of loop `1`, with no frame for loop `2`. -/
def ctxLoop1 : ExecutionContext :=
  { Public := [], forloop := [{ LoopIndex := 1, Counter0 := 0 }] }

/-- The expression that yields the counter of the innermost loop frame. -/
def counterExpr : IEvaluator := fun ctx =>
  match ctx.forloop with
  | [] => .error { Sender := "execution", OrigError := "no loop" }
  | f :: _ => .ok ⟨⟨f.Counter0.toNat⟩⟩

/-- The `Priority` that `PriorityStack` builds from an evaluated evaluator. -/
def priorityEvaluator.snapshot (pe : priorityEvaluator) : Pongo2.Priority :=
  { ClauseIndex := pe.clauseIndex, Value := pe.priority, LoopStack := pe.loopStack }

/-- A new, unevaluated evaluator whose scope lies in no loop. -/
def evaluatorNew : priorityEvaluator :=
  priorityEvaluator.new (constantExpr 5)

/-- An evaluated evaluator of value `1`, clause `0`, in no loop. -/
def evaluatorOuter : priorityEvaluator :=
  { priority := ⟨1⟩, evaluator := constantExpr 1, evaluated := true, clauseIndex := 0,
    loopStack := [] }

/-- An evaluated evaluator of value `2`, clause `3`, in no loop. -/
def evaluatorInner : priorityEvaluator :=
  { priority := ⟨2⟩, evaluator := constantExpr 2, evaluated := true, clauseIndex := 3,
    loopStack := [] }

/-- Evaluators: address `0` holds the outer scope's, every other address the inner scope's. -/
def heapNested : Heap := fun a => if a = 0 then evaluatorOuter else evaluatorInner

/-- Evaluators: address `1` is not evaluated yet, every other address is. -/
def heapSecondUnevaluated : Heap := fun a => if a = 1 then evaluatorNew else evaluatorOuter

/-- A node that writes nothing and captured the evaluators at addresses `0` and `1`. -/
def nodeCapturing01 : nodeStateful :=
  { INode := fun _ w => (.nil, w), priorityEvalStack := [0, 1] }

/-- A context outside every loop. -/
def ctxNoLoop : ExecutionContext :=
  { Public := [], forloop := [] }

/-- A node that writes the text `s`. -/
def textNode (s : String) : INode := fun _ w =>
  (.nil, { w with writer := (w.writer.WriteString s).1 })

/-- The compiled template of one priority scope (evaluator at address `0`) around the
text `A`. -/
def templateOneScope : Template :=
  { name := "<string>", Globals := [], exportedMacros := [], parents := [],
    root := { Nodes := [
      { priorityEvalStack := [],
        INode := tagPriorityNode.Execute
          { priorityEvaluator := 0,
            wrapper := { Endtag := "endpriority",
                         nodes := [{ INode := textNode "A", priorityEvalStack := [0] }] } } }] } }

/-- A context check that accepts every context. -/
def acceptAll : Context → Option Error := fun _ => none

/-- A chain in which loop `3` occurs twice: innermost at iteration `0`, outermost at
iteration `8`, with loop `4` at iteration `1` in between. -/
def ctxRepeatedLoop : ExecutionContext :=
  { Public := [],
    forloop := [{ LoopIndex := 3, Counter0 := 0 }, { LoopIndex := 4, Counter0 := 1 },
                { LoopIndex := 3, Counter0 := 8 }] }

/-- Evaluators: address `0` holds an evaluated scope in no loop, every other address an
evaluated scope in loop `7`. -/
def heapOuterThenLoop7 : Heap := fun a => if a = 0 then evaluatorOuter else evaluatorInLoop7

/-- A writer that holds one chunk and a priorities list left by an earlier node. -/
def writerWithOldPriorities : chunkWriter :=
  { chunks := [{ Value := "x", Priorities := [], TrackingIndex := { Index := 2, Set := true } }],
    priorities := [{ Value := ⟨9⟩, ClauseIndex := 9, LoopStack := none }],
    trackingIndex := { Index := 2, Set := true } }

/-- A node in no priority scope that writes the text `A`. -/
def nodeTextA : nodeStateful :=
  { INode := textNode "A", priorityEvalStack := [] }

/-- A node in no priority scope that writes the text `B`. -/
def nodeTextB : nodeStateful :=
  { INode := textNode "B", priorityEvalStack := [] }

/-- A node that writes the text `Q` and captured the evaluator at address `1`. -/
def nodeQuery1 : nodeStateful :=
  { INode := textNode "Q", priorityEvalStack := [1] }

/-- A node in no priority scope that writes the text `E` and then fails. -/
def nodeFailing : nodeStateful :=
  { INode := fun _ w =>
      (.err { Sender := "execution", OrigError := "failed" },
       { w with writer := (w.writer.WriteString "E").1 }),
    priorityEvalStack := [] }

/-- The world at the start of a buffered render over the given evaluators. -/
def worldBuffered (heap : Heap) : World :=
  { heap := heap, writer := .buffered templateWriterBuffer.fresh }

/-- The compiled template of the text `A` followed by a node that writes `E` and fails. -/
def templateFailing : Template :=
  { name := "<string>", Globals := [], exportedMacros := [], parents := [],
    root := { Nodes := [nodeTextA, nodeFailing] } }

/-- An expression that fails in every context. -/
def failingExpr : IEvaluator := fun _ =>
  .error { Sender := "execution", OrigError := "unknown variable" }

/-- The priority scope over the evaluator at address `0` around the text `A`. -/
def scopeNode : tagPriorityNode :=
  { priorityEvaluator := 0,
    wrapper := { Endtag := "endpriority",
                 nodes := [{ INode := textNode "A", priorityEvalStack := [0] }] } }

/-- An expression that yields the number `v` and counts its evaluations in the state. -/
def Effectful.countingExpr (v : Nat) : Effectful.IEvaluator Nat := fun _ k =>
  (.ok ⟨⟨v⟩⟩, k + 1)

/-- An expression that fails and counts its evaluations in the state. -/
def Effectful.failingCountingExpr : Effectful.IEvaluator Nat := fun _ k =>
  (.error { Sender := "execution", OrigError := "unknown variable" }, k + 1)

/-- A node inside the scope of the evaluator at address `0` that writes, as text, how
many expression evaluations have been made when it runs. -/
def Effectful.counterNode : Effectful.nodeStateful Nat :=
  { INode := fun _ w => (.nil, { w with writer := (w.writer.WriteString (toString w.ext)).1 }),
    priorityEvalStack := [0] }

/-- The priority scope over the evaluator at address `0` around the counter node. -/
def Effectful.scopeNode : Effectful.tagPriorityNode Nat :=
  { priorityEvaluator := 0,
    wrapper := { Endtag := "endpriority", nodes := [Effectful.counterNode] } }

/-- The world at the start of a buffered render: new evaluators over the expression
`expr`, and no expression evaluated so far. -/
def Effectful.worldBuffered (expr : Effectful.IEvaluator Nat) : Effectful.World Nat :=
  { heap := fun _ =>
      { priority := ⟨0⟩, evaluator := expr, evaluated := false, clauseIndex := 0,
        loopStack := [] },
    writer := .buffered templateWriterBuffer.fresh,
    ext := 0 }

/-- An evaluator over an expression without effects, as an evaluator over an expression
that leaves the (trivial) state alone. -/
def Effectful.liftEvaluator (pe : Pongo2.priorityEvaluator) : Effectful.priorityEvaluator Unit :=
  { priority := pe.priority, evaluator := fun ctx s => (pe.evaluator ctx, s),
    evaluated := pe.evaluated, clauseIndex := pe.clauseIndex, loopStack := pe.loopStack }

/-- The evaluator over the expression without effects that an evaluator over the trivial
state amounts to. -/
def Effectful.lowerEvaluator (pe : Effectful.priorityEvaluator Unit) : Pongo2.priorityEvaluator :=
  { priority := pe.priority, evaluator := fun ctx => (pe.evaluator ctx ()).1,
    evaluated := pe.evaluated, clauseIndex := pe.clauseIndex, loopStack := pe.loopStack }

/-- A world over expressions without effects, as a world over the trivial state. -/
def Effectful.liftWorld (w : Pongo2.World) : Effectful.World Unit :=
  { heap := fun a => Effectful.liftEvaluator (w.heap a), writer := w.writer, ext := () }

/-- The world over expressions without effects that a world over the trivial state
amounts to. -/
def Effectful.lowerWorld (w : Effectful.World Unit) : Pongo2.World :=
  { heap := fun a => Effectful.lowerEvaluator (w.heap a), writer := w.writer }

/-- A node over expressions without effects, as a node over the trivial state. -/
def Effectful.liftNode (n : Pongo2.nodeStateful) : Effectful.nodeStateful Unit :=
  { INode := fun ctx w =>
      ((n.INode ctx (Effectful.lowerWorld w)).1,
       Effectful.liftWorld (n.INode ctx (Effectful.lowerWorld w)).2),
    priorityEvalStack := n.priorityEvalStack }

/-- A priority node over expressions without effects, as one over the trivial state. -/
def Effectful.liftPriorityNode (node : Pongo2.tagPriorityNode) : Effectful.tagPriorityNode Unit :=
  { priorityEvaluator := node.priorityEvaluator,
    wrapper := { Endtag := node.wrapper.Endtag,
                 nodes := node.wrapper.nodes.map Effectful.liftNode } }

/-! ## Theorems -/

/-- C1 (fails on the code): with one evaluated evaluator whose loop-id list is `[7]` and a
loop frame chain that holds loop `7`, `SetChunkContext` does not succeed: it aborts on
the assignment into the nil `LoopStack` map, leaving the priorities list empty. -/
theorem SetChunkContext_aborts_on_present_loop :
    chunkWriter.fresh.SetChunkContext (fun _ => evaluatorInLoop7) ctxLoop7 nodeCapturing0
      = (.panicked "assignment to entry in nil map", chunkWriter.fresh) := by
  decide

/-- C2 (fails on the code): with loop-id list `[1, 2]` and a chain that holds loop `1` but
not loop `2`, `SetChunkContext` does not return the error of sender `SetChunkContext`:
it aborts at loop `1`, before the absent loop `2` is looked at. -/
theorem SetChunkContext_aborts_before_absent_loop :
    (chunkWriter.fresh.SetChunkContext (fun _ => evaluatorInLoops12) ctxLoop1 nodeCapturing0).1
        = .panicked "assignment to entry in nil map"
      ∧ ∀ e : Error,
        (chunkWriter.fresh.SetChunkContext (fun _ => evaluatorInLoops12) ctxLoop1
          nodeCapturing0).1 ≠ .err e := by
  refine ⟨by decide, ?_⟩
  intro e h
  have h2 : (chunkWriter.fresh.SetChunkContext (fun _ => evaluatorInLoops12) ctxLoop1
      nodeCapturing0).1 = .panicked "assignment to entry in nil map" := by decide
  rw [h2] at h
  cases h

/-! ### priorityEvaluator -/

theorem Priority_of_evaluated (pe : priorityEvaluator) (h : pe.evaluated = true) :
    pe.Priority = (pe.priority, none) := by
  simp [priorityEvaluator.Priority, h]

theorem Priority_of_unevaluated (pe : priorityEvaluator) (h : pe.evaluated = false) :
    pe.Priority = (⟨0⟩, some priorityNotEvaluated) := by
  simp [priorityEvaluator.Priority, h]

theorem Evaluate_of_ok (pe : priorityEvaluator) (ctx : ExecutionContext) (v : Value)
    (h : pe.evaluator ctx = .ok v) :
    pe.Evaluate ctx = ({ pe with priority := v.Float, evaluated := true }, none) := by
  simp [priorityEvaluator.Evaluate, h]

theorem Evaluate_of_error (pe : priorityEvaluator) (ctx : ExecutionContext) (e : Error)
    (h : pe.evaluator ctx = .error e) :
    pe.Evaluate ctx = (pe, some e) := by
  simp [priorityEvaluator.Evaluate, h]

theorem Evaluate_evaluator (pe : priorityEvaluator) (ctx : ExecutionContext) :
    (pe.Evaluate ctx).1.evaluator = pe.evaluator := by
  unfold priorityEvaluator.Evaluate
  cases pe.evaluator ctx <;> rfl

/-- C4: `Priority()` returns an error exactly when the evaluated flag is unset, and that
error has sender `priority`; with the flag set it returns the stored value and no error;
`Evaluate` returns no error exactly when the wrapped expression succeeds, and then the
stored value, which `Priority()` returns afterwards, is the float of the expression's
result for that context. -/
theorem Priority_error_iff_unevaluated (pe : priorityEvaluator) :
    (pe.Priority.2 ≠ none ↔ pe.evaluated = false)
      ∧ (∀ e, pe.Priority.2 = some e → e.Sender = "priority")
      ∧ (pe.evaluated = true → pe.Priority = (pe.priority, none))
      ∧ (∀ ctx, (pe.Evaluate ctx).2 = none ↔ ∃ v, pe.evaluator ctx = .ok v)
      ∧ (∀ ctx v, pe.evaluator ctx = .ok v →
          (pe.Evaluate ctx).2 = none
            ∧ (pe.Evaluate ctx).1.priority = v.Float
            ∧ (pe.Evaluate ctx).1.Priority = (v.Float, none)) := by
  refine ⟨?_, ?_, Priority_of_evaluated pe, ?_, ?_⟩
  · cases h : pe.evaluated
    · simp [Priority_of_unevaluated pe h]
    · simp [Priority_of_evaluated pe h]
  · intro e he
    cases h : pe.evaluated
    · rw [Priority_of_unevaluated pe h] at he
      simp only [Option.some.injEq] at he
      rw [← he]
      rfl
    · rw [Priority_of_evaluated pe h] at he
      cases he
  · intro ctx
    cases h : pe.evaluator ctx with
    | error e => simp [Evaluate_of_error pe ctx e h]
    | ok v => simp [Evaluate_of_ok pe ctx v h]
  · intro ctx v h
    rw [Evaluate_of_ok pe ctx v h]
    exact ⟨rfl, rfl, rfl⟩

/-- C4 at a new evaluator over the constant expression `9`: the query fails before
`Evaluate` and returns `9` after it. -/
theorem Priority_error_iff_unevaluated_witness :
    (priorityEvaluator.new (constantExpr 9)).Priority.2 ≠ none
      ∧ ((priorityEvaluator.new (constantExpr 9)).Evaluate ctxLoop7).1.Priority
          = (⟨9⟩, none) :=
  ⟨(Priority_error_iff_unevaluated (priorityEvaluator.new (constantExpr 9))).1.mpr rfl,
   ((Priority_error_iff_unevaluated (priorityEvaluator.new (constantExpr 9))).2.2.2.2
      ctxLoop7 ⟨⟨9⟩⟩ rfl).2.2⟩

/-- C6: when the wrapped expression yields `v1` on the first context and `v2` on the
second, two `Evaluate` calls leave `Priority()` returning exactly `v2`; and a second
`Evaluate` on a context with the same expression result changes nothing. -/
theorem Evaluate_twice_overwrites (pe : priorityEvaluator) (ctx1 ctx2 : ExecutionContext)
    (v1 v2 : Value) (h1 : pe.evaluator ctx1 = .ok v1) (h2 : pe.evaluator ctx2 = .ok v2) :
    ((pe.Evaluate ctx1).1.Evaluate ctx2).2 = none
      ∧ ((pe.Evaluate ctx1).1.Evaluate ctx2).1.Priority = (v2.Float, none)
      ∧ ((pe.Evaluate ctx1).1.Evaluate ctx2).1 = (pe.Evaluate ctx2).1
      ∧ (v2 = v1 → (pe.Evaluate ctx1).1.Evaluate ctx2 = pe.Evaluate ctx1)
      ∧ (pe.Evaluate ctx1).1.Evaluate ctx1 = pe.Evaluate ctx1 := by
  have e1 := Evaluate_of_ok pe ctx1 v1 h1
  have e2 := Evaluate_of_ok pe ctx2 v2 h2
  have k2 : (pe.Evaluate ctx1).1.evaluator ctx2 = .ok v2 := by
    rw [Evaluate_evaluator]; exact h2
  have k1 : (pe.Evaluate ctx1).1.evaluator ctx1 = .ok v1 := by
    rw [Evaluate_evaluator]; exact h1
  have e12 := Evaluate_of_ok (pe.Evaluate ctx1).1 ctx2 v2 k2
  have e11 := Evaluate_of_ok (pe.Evaluate ctx1).1 ctx1 v1 k1
  refine ⟨?_, ?_, ?_, ?_, ?_⟩
  · rw [e12]
  · rw [e12]; rfl
  · rw [e12, e2, e1]
  · intro hv
    rw [e12, e1, hv]
  · rw [e11, e1]

/-- C6 at the loop-counter expression: evaluated in iteration `2` and then in iteration
`0`, the evaluator answers `0`. -/
theorem Evaluate_twice_overwrites_witness :
    (((priorityEvaluator.new counterExpr).Evaluate ctxLoop7).1.Evaluate ctxLoop1).1.Priority
      = (⟨0⟩, none) :=
  (Evaluate_twice_overwrites (priorityEvaluator.new counterExpr) ctxLoop7 ctxLoop1
    ⟨⟨2⟩⟩ ⟨⟨0⟩⟩ rfl rfl).2.1

/-! ### nodeStateful.PriorityStack -/

theorem PriorityStack_loop_evaluated (heap : Heap) (l : List Nat)
    (h : ∀ p ∈ l, (heap p).evaluated = true) :
    PriorityStack.loop heap l = (l.map (fun p => (heap p).snapshot), none) := by
  induction l with
  | nil => rfl
  | cons p rest ih =>
    have hp := h p (List.mem_cons_self p rest)
    have hr := ih (fun q hq => h q (List.mem_cons_of_mem p hq))
    simp only [PriorityStack.loop, Priority_of_evaluated (heap p) hp, hr, List.map_cons]
    rfl

theorem PriorityStack_loop_unevaluated (heap : Heap) (pre : List Nat) (p : Nat)
    (post : List Nat) (hpre : ∀ q ∈ pre, (heap q).evaluated = true)
    (hp : (heap p).evaluated = false) :
    PriorityStack.loop heap (pre ++ p :: post) = ([], some priorityNotEvaluated) := by
  induction pre with
  | nil =>
    simp only [List.nil_append, PriorityStack.loop, Priority_of_unevaluated (heap p) hp]
  | cons q rest ih =>
    have hq := hpre q (List.mem_cons_self q rest)
    have hr := ih (fun r hr => hpre r (List.mem_cons_of_mem q hr))
    have hstep : PriorityStack.loop heap (q :: (rest ++ p :: post))
        = ([], some priorityNotEvaluated) := by
      simp only [PriorityStack.loop, Priority_of_evaluated (heap q) hq, hr]
    exact hstep

theorem exists_first_unevaluated (heap : Heap) (l : List Nat)
    (h : ∃ p ∈ l, (heap p).evaluated = false) :
    ∃ pre p post, l = pre ++ p :: post ∧ (∀ q ∈ pre, (heap q).evaluated = true)
      ∧ (heap p).evaluated = false := by
  induction l with
  | nil => obtain ⟨p, hp, _⟩ := h; cases hp
  | cons a rest ih =>
    cases ha : (heap a).evaluated with
    | false => exact ⟨[], a, rest, rfl, by simp, ha⟩
    | true =>
      obtain ⟨p, hp, hpe⟩ := h
      have hmem : p ∈ rest := by
        rcases List.mem_cons.mp hp with rfl | hm
        · rw [ha] at hpe; cases hpe
        · exact hm
      obtain ⟨pre, q, post, hl, hpre, hq⟩ := ih ⟨p, hmem, hpe⟩
      refine ⟨a :: pre, q, post, by rw [hl]; rfl, ?_, hq⟩
      intro r hr
      rcases List.mem_cons.mp hr with rfl | hm
      · exact ha
      · exact hpre r hm

/-- C7: `PriorityStack()` fails exactly when some captured evaluator is unevaluated; it
then returns no list and the error of the first unevaluated evaluator; otherwise it
returns, in snapshot order, one `{Value, ClauseIndex, LoopStack}` entry per captured
evaluator, so a list of the snapshot's length. -/
theorem PriorityStack_spec (n : nodeStateful) (heap : Heap) :
    ((n.PriorityStack heap).2 ≠ none ↔ ∃ p ∈ n.priorityEvalStack, (heap p).evaluated = false)
      ∧ (∀ pre p post, n.priorityEvalStack = pre ++ p :: post →
          (∀ q ∈ pre, (heap q).evaluated = true) → (heap p).evaluated = false →
          n.PriorityStack heap = ([], (heap p).Priority.2))
      ∧ ((∀ p ∈ n.priorityEvalStack, (heap p).evaluated = true) →
          n.PriorityStack heap
              = (n.priorityEvalStack.map
                  (fun p => { Value := (heap p).priority, ClauseIndex := (heap p).clauseIndex,
                              LoopStack := (heap p).loopStack }), none)
            ∧ (n.PriorityStack heap).1.length = n.priorityEvalStack.length) := by
  refine ⟨?_, ?_, ?_⟩
  · constructor
    · intro hne
      by_contra hall
      apply hne
      have hall2 : ∀ p ∈ n.priorityEvalStack, (heap p).evaluated = true := by
        intro p hp
        cases hpe : (heap p).evaluated with
        | true => rfl
        | false => exact absurd ⟨p, hp, hpe⟩ hall
      unfold nodeStateful.PriorityStack
      rw [PriorityStack_loop_evaluated heap _ hall2]
    · intro hex
      obtain ⟨pre, p, post, hl, hpre, hp⟩ := exists_first_unevaluated heap _ hex
      unfold nodeStateful.PriorityStack
      rw [hl, PriorityStack_loop_unevaluated heap pre p post hpre hp]
      simp
  · intro pre p post hl hpre hp
    unfold nodeStateful.PriorityStack
    rw [hl, PriorityStack_loop_unevaluated heap pre p post hpre hp,
      Priority_of_unevaluated (heap p) hp]
  · intro hall
    unfold nodeStateful.PriorityStack
    rw [PriorityStack_loop_evaluated heap _ hall]
    refine ⟨rfl, ?_⟩
    simp

/-- C7 at a node capturing addresses `0` and `1`: with both evaluated the two entries come
back outer first; with the second one unevaluated the call fails with its error. -/
theorem PriorityStack_spec_witness :
    nodeCapturing01.PriorityStack heapNested
        = ([{ Value := ⟨1⟩, ClauseIndex := 0, LoopStack := [] },
            { Value := ⟨2⟩, ClauseIndex := 3, LoopStack := [] }], none)
      ∧ nodeCapturing01.PriorityStack heapSecondUnevaluated = ([], some priorityNotEvaluated) :=
  ⟨((PriorityStack_spec nodeCapturing01 heapNested).2.2 (by decide)).1,
   (PriorityStack_spec nodeCapturing01 heapSecondUnevaluated).2.1 [0] 1 [] rfl
     (by decide) rfl⟩

/-! ### chunkWriter.WriteChunk -/

/-- C10: `WriteChunk(s)` appends exactly the chunk `{s, current priorities, current tracking
index}` at the end of the sequence; the chunks appended before are unchanged, and so are
the writer's current priorities and tracking index. -/
theorem WriteChunk_appends_one (cw : chunkWriter) (s : String) :
    (cw.WriteChunk s).chunks
        = cw.chunks ++
            [{ Value := s, Priorities := cw.priorities, TrackingIndex := cw.trackingIndex }]
      ∧ (cw.WriteChunk s).chunks.length = cw.chunks.length + 1
      ∧ (cw.WriteChunk s).chunks.take cw.chunks.length = cw.chunks
      ∧ (cw.WriteChunk s).priorities = cw.priorities
      ∧ (cw.WriteChunk s).trackingIndex = cw.trackingIndex := by
  refine ⟨rfl, ?_, ?_, rfl, rfl⟩
  · simp [chunkWriter.WriteChunk]
  · simp [chunkWriter.WriteChunk]

/-! ### Call sequences on the chunkWriter -/

theorem run_append (cw : chunkWriter) (a b : List WriterOp) :
    cw.run (a ++ b) = (cw.run a).run b := by
  simp [chunkWriter.run, List.foldl_append]

theorem run_cons (cw : chunkWriter) (op : WriterOp) (ops : List WriterOp) :
    cw.run (op :: ops) = (cw.apply op).run ops := rfl

theorem apply_priorities (cw : chunkWriter) (op : WriterOp) :
    (cw.apply op).priorities = cw.priorities := by
  cases op <;> rfl

theorem run_priorities (cw : chunkWriter) (ops : List WriterOp) :
    (cw.run ops).priorities = cw.priorities := by
  induction ops generalizing cw with
  | nil => rfl
  | cons op rest ih => rw [run_cons, ih, apply_priorities]

theorem run_chunks (cw : chunkWriter) (ops : List WriterOp) :
    ∃ new : Chunks, (cw.run ops).chunks = cw.chunks ++ new
      ∧ new.length = (ops.filter WriterOp.isWrite).length
      ∧ ∀ c ∈ new, c.Priorities = cw.priorities := by
  induction ops generalizing cw with
  | nil => exact ⟨[], by simp [chunkWriter.run], rfl, by simp⟩
  | cons op rest ih =>
    obtain ⟨new, hc, hl, hp⟩ := ih (cw.apply op)
    rw [apply_priorities] at hp
    rw [run_cons, hc]
    cases op with
    | WriteChunk s =>
      refine ⟨{ Value := s, Priorities := cw.priorities,
                TrackingIndex := cw.trackingIndex } :: new, ?_, ?_, ?_⟩
      · simp [chunkWriter.apply, chunkWriter.WriteChunk]
      · simp [WriterOp.isWrite, hl]
      · intro c hcm
        rcases List.mem_cons.mp hcm with rfl | hm
        · rfl
        · exact hp c hm
    | SetTrackingIndex i =>
      exact ⟨new, rfl, by simpa [WriterOp.isWrite] using hl, hp⟩
    | UnsetTrackingIndex =>
      exact ⟨new, rfl, by simpa [WriterOp.isWrite] using hl, hp⟩

theorem run_writes_tracking (cw : chunkWriter) (ops : List WriterOp)
    (h : ∀ op ∈ ops, op.isWrite = true) :
    (cw.run ops).trackingIndex = cw.trackingIndex := by
  induction ops generalizing cw with
  | nil => rfl
  | cons op rest ih =>
    rw [run_cons, ih _ (fun o ho => h o (List.mem_cons_of_mem op ho))]
    have hop := h op (List.mem_cons_self op rest)
    cases op with
    | WriteChunk s => rfl
    | SetTrackingIndex i => cases hop
    | UnsetTrackingIndex => cases hop

theorem run_unset_tracking (cw : chunkWriter) (ops : List WriterOp)
    (hcw : cw.trackingIndex.Set = false)
    (h : ∀ op ∈ ops, ∀ i, op ≠ WriterOp.SetTrackingIndex i) :
    (cw.run ops).trackingIndex.Set = false := by
  induction ops generalizing cw with
  | nil => exact hcw
  | cons op rest ih =>
    rw [run_cons]
    apply ih _ _ (fun o ho => h o (List.mem_cons_of_mem op ho))
    have hop := h op (List.mem_cons_self op rest)
    cases op with
    | WriteChunk s => exact hcw
    | SetTrackingIndex i => exact absurd rfl (hop i)
    | UnsetTrackingIndex => rfl

theorem run_written_chunk (cw : chunkWriter) (pre : List WriterOp) (s : String)
    (post : List WriterOp) :
    (cw.run (pre ++ WriterOp.WriteChunk s :: post)).chunks[(cw.run pre).chunks.length]?
      = some { Value := s, Priorities := (cw.run pre).priorities,
               TrackingIndex := (cw.run pre).trackingIndex } := by
  rw [run_append, run_cons]
  obtain ⟨new, hc, _, _⟩ := run_chunks ((cw.run pre).apply (WriterOp.WriteChunk s)) post
  rw [hc]
  simp only [chunkWriter.apply, chunkWriter.WriteChunk, List.append_assoc, List.singleton_append]
  rw [List.getElem?_append_right (le_refl _)]
  simp

theorem run_chunks_length (cw : chunkWriter) (ops : List WriterOp) :
    (cw.run ops).chunks.length = cw.chunks.length + (ops.filter WriterOp.isWrite).length := by
  obtain ⟨new, hc, hl, _⟩ := run_chunks cw ops
  rw [hc, List.length_append, hl]

/-- C9: on a fresh `chunkWriter`, the chunk appended by a `WriteChunk(s)` call that follows
the calls `pre` sits at the position counting the earlier `WriteChunk` calls and has text
`s`; it carries `{Index: i, Set: true}` when the last tracking call before it is
`SetTrackingIndex(i)`, and `Set = false` when no `SetTrackingIndex` precedes it or when
an `UnsetTrackingIndex` precedes it with no `SetTrackingIndex` in between. -/
theorem tracking_index_of_chunks (pre : List WriterOp) (s : String) (post : List WriterOp) :
    ∃ c : Chunk,
      (chunkWriter.fresh.run (pre ++ WriterOp.WriteChunk s :: post)).chunks[
          (pre.filter WriterOp.isWrite).length]? = some c
        ∧ c.Value = s
        ∧ (∀ pre1 i mid, pre = pre1 ++ WriterOp.SetTrackingIndex i :: mid →
            (∀ op ∈ mid, op.isWrite = true) →
            c.TrackingIndex = { Index := i, Set := true })
        ∧ ((∀ op ∈ pre, ∀ i, op ≠ WriterOp.SetTrackingIndex i) → c.TrackingIndex.Set = false)
        ∧ (∀ pre1 mid, pre = pre1 ++ WriterOp.UnsetTrackingIndex :: mid →
            (∀ op ∈ mid, ∀ i, op ≠ WriterOp.SetTrackingIndex i) →
            c.TrackingIndex.Set = false) := by
  refine ⟨{ Value := s, Priorities := (chunkWriter.fresh.run pre).priorities,
            TrackingIndex := (chunkWriter.fresh.run pre).trackingIndex }, ?_, rfl, ?_, ?_, ?_⟩
  · have hlen := run_chunks_length chunkWriter.fresh pre
    have hidx := run_written_chunk chunkWriter.fresh pre s post
    rw [hlen] at hidx
    simpa [chunkWriter.fresh] using hidx
  · intro pre1 i mid hpre hmid
    show (chunkWriter.fresh.run pre).trackingIndex = _
    rw [hpre, run_append, run_cons, run_writes_tracking _ mid hmid]
    rfl
  · intro hno
    exact run_unset_tracking chunkWriter.fresh pre rfl hno
  · intro pre1 mid hpre hmid
    show (chunkWriter.fresh.run pre).trackingIndex.Set = false
    rw [hpre, run_append, run_cons]
    exact run_unset_tracking _ mid rfl hmid

/-- C9 on the calls `WriteChunk a, SetTrackingIndex 4, WriteChunk b, UnsetTrackingIndex,
WriteChunk c`: the chunks carry unset, `{4, set}` and unset in this order. -/
theorem tracking_index_of_chunks_witness :
    (chunkWriter.fresh.run
        [.WriteChunk "a", .SetTrackingIndex 4, .WriteChunk "b", .UnsetTrackingIndex,
         .WriteChunk "c"]).chunks.map (fun c => (c.Value, c.TrackingIndex.Set))
        = [("a", false), ("b", true), ("c", false)]
      ∧ ∃ c : Chunk,
        (chunkWriter.fresh.run
          ([.WriteChunk "a", .SetTrackingIndex 4] ++ WriterOp.WriteChunk "b" ::
            [.UnsetTrackingIndex, .WriteChunk "c"])).chunks[1]? = some c
          ∧ c.TrackingIndex = { Index := 4, Set := true } := by
  refine ⟨by decide, ?_⟩
  obtain ⟨c, hc, _, hset, _, _⟩ :=
    tracking_index_of_chunks [.WriteChunk "a", .SetTrackingIndex 4] "b"
      [.UnsetTrackingIndex, .WriteChunk "c"]
  exact ⟨c, hc, hset [.WriteChunk "a"] 4 [] rfl (by simp)⟩

/-! ### chunkWriter.SetChunkContext -/

theorem SetChunkContext_loop_no_loops (positions : List (Int × Int)) (cw : chunkWriter)
    (ps : List Priority) (h : ∀ p ∈ ps, p.LoopStack = []) :
    SetChunkContext.loop positions cw ps
      = (.nil, { cw with priorities := cw.priorities ++ ps.map (fun p =>
          { Value := p.Value, ClauseIndex := p.ClauseIndex, LoopStack := none }) }) := by
  induction ps generalizing cw with
  | nil => simp [SetChunkContext.loop]
  | cons p rest ih =>
    have hp := h p (List.mem_cons_self p rest)
    have hr := fun cw2 => ih cw2 (fun q hq => h q (List.mem_cons_of_mem p hq))
    simp only [SetChunkContext.loop, hp, SetChunkContext.resolve, hr, List.map_cons,
      List.append_assoc, List.singleton_append]

theorem SetChunkContext_no_loops (cw : chunkWriter) (heap : Heap) (ctx : ExecutionContext)
    (n : nodeStateful)
    (h : ∀ p ∈ n.priorityEvalStack, (heap p).evaluated = true ∧ (heap p).loopStack = []) :
    cw.SetChunkContext heap ctx n
      = (.nil, { cw with priorities := n.priorityEvalStack.map (fun p =>
          { Value := (heap p).priority, ClauseIndex := (heap p).clauseIndex,
            LoopStack := none }) }) := by
  unfold chunkWriter.SetChunkContext nodeStateful.PriorityStack
  rw [PriorityStack_loop_evaluated heap _ (fun p hp => (h p hp).1)]
  simp only
  rw [SetChunkContext_loop_no_loops]
  · simp [priorityEvaluator.snapshot, Function.comp_def]
  · intro p hp
    obtain ⟨q, hq, rfl⟩ := List.mem_map.mp hp
    exact (h q hq).2

/-- C3: when the node's snapshot holds N evaluated evaluators with empty loop-id lists,
`SetChunkContext` succeeds, and after any following `WriteChunk`, `SetTrackingIndex` and
`UnsetTrackingIndex` calls the earlier chunks are kept, one chunk is appended per
`WriteChunk`, and each appended chunk carries exactly N Priority Details whose values and
clause indexes are those of the captured evaluators in snapshot order. -/
theorem chunks_carry_snapshot_priorities (cw : chunkWriter) (heap : Heap)
    (ctx : ExecutionContext) (n : nodeStateful) (ops : List WriterOp)
    (h : ∀ p ∈ n.priorityEvalStack, (heap p).evaluated = true ∧ (heap p).loopStack = []) :
    (cw.SetChunkContext heap ctx n).1 = .nil
      ∧ (((cw.SetChunkContext heap ctx n).2.run ops).chunks.take cw.chunks.length = cw.chunks)
      ∧ (((cw.SetChunkContext heap ctx n).2.run ops).chunks.drop cw.chunks.length).length
          = (ops.filter WriterOp.isWrite).length
      ∧ ∀ c ∈ ((cw.SetChunkContext heap ctx n).2.run ops).chunks.drop cw.chunks.length,
          c.Priorities.length = n.priorityEvalStack.length
            ∧ c.Priorities.map (fun pd => (pd.Value, pd.ClauseIndex))
                = n.priorityEvalStack.map (fun p => ((heap p).priority, (heap p).clauseIndex)) := by
  rw [SetChunkContext_no_loops cw heap ctx n h]
  obtain ⟨new, hc, hl, hp⟩ := run_chunks
    { cw with priorities := n.priorityEvalStack.map (fun p =>
        ({ Value := (heap p).priority, ClauseIndex := (heap p).clauseIndex,
           LoopStack := none } : PriorityDetails)) } ops
  simp only at hc hp ⊢
  rw [hc]
  refine ⟨trivial, by simp, by simpa using hl, ?_⟩
  intro c hcm
  have hcn : c ∈ new := by simpa using hcm
  rw [hp c hcn]
  simp [Function.comp_def]

/-- C3 at two nested evaluated scopes (values `1` and `2`): `SetChunkContext` succeeds
and the chunk `Y` written after it carries the two Priority Details, outer first. -/
theorem chunks_carry_snapshot_priorities_witness :
    (chunkWriter.fresh.SetChunkContext heapNested ctxNoLoop nodeCapturing01).1 = .nil
      ∧ ((chunkWriter.fresh.SetChunkContext heapNested ctxNoLoop nodeCapturing01).2.run
          [.WriteChunk "Y"]).chunks
          = [{ Value := "Y",
               Priorities := [{ Value := ⟨1⟩, ClauseIndex := 0, LoopStack := none },
                              { Value := ⟨2⟩, ClauseIndex := 3, LoopStack := none }],
               TrackingIndex := { Index := 0, Set := false } }]
      ∧ ([{ Value := ⟨1⟩, ClauseIndex := 0, LoopStack := none },
          { Value := ⟨2⟩, ClauseIndex := 3, LoopStack := none }] : List PriorityDetails).map
            (fun pd => (pd.Value, pd.ClauseIndex))
          = nodeCapturing01.priorityEvalStack.map
              (fun p => ((heapNested p).priority, (heapNested p).clauseIndex)) :=
  ⟨(chunks_carry_snapshot_priorities chunkWriter.fresh heapNested ctxNoLoop nodeCapturing01
      [.WriteChunk "Y"] (by decide)).1,
   by decide,
   ((chunks_carry_snapshot_priorities chunkWriter.fresh heapNested ctxNoLoop nodeCapturing01
      [.WriteChunk "Y"] (by decide)).2.2.2
      { Value := "Y",
        Priorities := [{ Value := ⟨1⟩, ClauseIndex := 0, LoopStack := none },
                       { Value := ⟨2⟩, ClauseIndex := 3, LoopStack := none }],
        TrackingIndex := { Index := 0, Set := false } } (by decide)).2⟩

/-! ### templateWriterBuffer -/

theorem buffer_run_cons (tw : templateWriterBuffer) (op : OutputOp) (ops : List OutputOp) :
    tw.run (op :: ops) = (tw.apply op).run ops := rfl

theorem Chunks_bytes_append (a b : Chunks) : Chunks.bytes (a ++ b) = a.bytes ++ b.bytes := by
  simp [Chunks.bytes]

theorem buffer_run_bytes (tw : templateWriterBuffer) (ops : List OutputOp) :
    (tw.run ops).b = tw.b ++ ops.flatMap OutputOp.bytes
      ∧ Chunks.bytes (tw.run ops).chunkWriter.Chunks
          = Chunks.bytes tw.chunkWriter.Chunks ++ ops.flatMap OutputOp.chunkBytes := by
  induction ops generalizing tw with
  | nil => simp [templateWriterBuffer.run]
  | cons op rest ih =>
    rw [buffer_run_cons, (ih (tw.apply op)).1, (ih (tw.apply op)).2]
    cases op with
    | WriteString s =>
      simp [templateWriterBuffer.apply, templateWriterBuffer.WriteString, OutputOp.bytes,
        OutputOp.chunkBytes, chunkWriter.Chunks, chunkWriter.WriteChunk, Chunks.bytes]
    | Write b =>
      simp [templateWriterBuffer.apply, templateWriterBuffer.Write, OutputOp.bytes,
        OutputOp.chunkBytes]

/-- C8 (as stated, fails): after the single call `Write("A")` on a fresh buffered writer the
buffer holds the byte `65` while no chunk was recorded, so the chunks concatenate to
nothing. -/
theorem Write_records_no_chunk :
    (templateWriterBuffer.fresh.run [.Write [65]]).b = [65]
      ∧ (templateWriterBuffer.fresh.run [.Write [65]]).chunkWriter.Chunks = []
      ∧ Chunks.bytes (templateWriterBuffer.fresh.run [.Write [65]]).chunkWriter.Chunks = [] := by
  decide

/-- C8 (amended): on a fresh buffered writer the buffer holds the bytes of all `WriteString`
and `Write` calls in order, and the chunks concatenate to the bytes of the `WriteString`
calls alone; so for every sequence of `WriteString` calls and `Write` calls of empty
byte slices, concatenating the chunks' `Value` yields exactly the buffer. -/
theorem chunks_concat_eq_buffer (ops : List OutputOp) :
    (templateWriterBuffer.fresh.run ops).b = ops.flatMap OutputOp.bytes
      ∧ Chunks.bytes (templateWriterBuffer.fresh.run ops).chunkWriter.Chunks
          = ops.flatMap OutputOp.chunkBytes
      ∧ ((∀ b, OutputOp.Write b ∈ ops → b = []) →
          Chunks.bytes (templateWriterBuffer.fresh.run ops).chunkWriter.Chunks
            = (templateWriterBuffer.fresh.run ops).b) := by
  have h := buffer_run_bytes templateWriterBuffer.fresh ops
  have hb : (templateWriterBuffer.fresh.run ops).b = ops.flatMap OutputOp.bytes := by
    rw [h.1]; rfl
  have hc : Chunks.bytes (templateWriterBuffer.fresh.run ops).chunkWriter.Chunks
      = ops.flatMap OutputOp.chunkBytes := by
    rw [h.2]; rfl
  refine ⟨hb, hc, ?_⟩
  intro hw
  rw [hb, hc]
  clear h hb hc
  induction ops with
  | nil => rfl
  | cons op rest ih =>
    have hr := ih (fun b hb => hw b (List.mem_cons_of_mem op hb))
    cases op with
    | WriteString s => simp [OutputOp.bytes, OutputOp.chunkBytes, hr]
    | Write b =>
      have hbe := hw b (List.mem_cons_self _ rest)
      simp [OutputOp.bytes, OutputOp.chunkBytes, hr, hbe]

/-- C8 (amended) on `WriteString "A"`, `Write` of nothing, `WriteString "B"`: the chunks
`A`, `B` concatenate to the buffer `AB`. -/
theorem chunks_concat_eq_buffer_witness :
    Chunks.bytes
        (templateWriterBuffer.fresh.run
          [.WriteString "A", .Write [], .WriteString "B"]).chunkWriter.Chunks
      = (templateWriterBuffer.fresh.run [.WriteString "A", .Write [], .WriteString "B"]).b :=
  (chunks_concat_eq_buffer [.WriteString "A", .Write [], .WriteString "B"]).2.2
    (by intro b hb; simpa using hb)

/-! ### Evaluator state across renders -/

theorem EvaluateAll_cons (pe : priorityEvaluator) (ctx : ExecutionContext)
    (calls : List ExecutionContext) :
    pe.EvaluateAll (ctx :: calls) = (pe.Evaluate ctx).1.EvaluateAll calls := rfl

theorem EvaluateAll_evaluated (pe : priorityEvaluator) (calls : List ExecutionContext) :
    (pe.EvaluateAll calls).evaluated = true
      ↔ pe.evaluated = true ∨ ∃ ctx ∈ calls, ∃ v, pe.evaluator ctx = .ok v := by
  induction calls generalizing pe with
  | nil => simp [priorityEvaluator.EvaluateAll]
  | cons ctx rest ih =>
    rw [EvaluateAll_cons, ih, Evaluate_evaluator]
    cases h : pe.evaluator ctx with
    | error e =>
      rw [Evaluate_of_error pe ctx e h]
      constructor
      · rintro (h1 | ⟨c, hc, v, hv⟩)
        · exact Or.inl h1
        · exact Or.inr ⟨c, List.mem_cons_of_mem ctx hc, v, hv⟩
      · rintro (h1 | ⟨c, hc, v, hv⟩)
        · exact Or.inl h1
        · rcases List.mem_cons.mp hc with rfl | hm
          · rw [h] at hv; cases hv
          · exact Or.inr ⟨c, hm, v, hv⟩
    | ok v =>
      rw [Evaluate_of_ok pe ctx v h]
      constructor
      · intro _
        exact Or.inr ⟨ctx, List.mem_cons_self ctx rest, v, h⟩
      · intro _
        exact Or.inl rfl

theorem EvaluateAll_all_fail (pe : priorityEvaluator) (calls : List ExecutionContext)
    (h : ∀ ctx ∈ calls, ∀ v, pe.evaluator ctx ≠ .ok v) :
    pe.EvaluateAll calls = pe := by
  induction calls with
  | nil => rfl
  | cons ctx rest ih =>
    rw [EvaluateAll_cons]
    cases hc : pe.evaluator ctx with
    | error e =>
      rw [Evaluate_of_error pe ctx e hc]
      exact ih (fun c hm => h c (List.mem_cons_of_mem ctx hm))
    | ok v => exact absurd hc (h ctx (List.mem_cons_self ctx rest) v)

theorem EvaluateAll_last_ok (pe : priorityEvaluator) (pre : List ExecutionContext)
    (ctx : ExecutionContext) (post : List ExecutionContext) (v : Value)
    (hv : pe.evaluator ctx = .ok v) (hpost : ∀ c ∈ post, ∀ v2, pe.evaluator c ≠ .ok v2) :
    (pe.EvaluateAll (pre ++ ctx :: post)).Priority = (v.Float, none) := by
  induction pre generalizing pe with
  | nil =>
    rw [List.nil_append, EvaluateAll_cons, Evaluate_of_ok pe ctx v hv]
    have hfail := EvaluateAll_all_fail
      { pe with priority := v.Float, evaluated := true } post hpost
    simp only at hfail ⊢
    rw [hfail]
    rfl
  | cons c rest ih =>
    rw [List.cons_append, EvaluateAll_cons]
    apply ih
    · rw [Evaluate_evaluator]; exact hv
    · intro c2 hc2 v2
      rw [Evaluate_evaluator]
      exact hpost c2 hc2 v2

/-- C5 (as stated, fails): after one render of the one-scope template from new
evaluators, a second render starts with the scope's evaluator still marked evaluated,
so `Priority()` before any `Evaluate` of that second render returns the first render's
value `5` and no error. The first render itself ends without error. -/
theorem Priority_survives_render :
    ((templateOneScope.renders acceptAll [none] (fun _ => evaluatorNew)) 0).Priority
        = (⟨5⟩, none)
      ∧ (templateOneScope.execute acceptAll none
          { heap := fun _ => evaluatorNew,
            writer := .buffered templateWriterBuffer.fresh }).1 = .nil
      ∧ ((fun _ => evaluatorNew : Heap) 0).Priority = (⟨0⟩, some priorityNotEvaluated) := by
  decide

/-- C5 (amended): let `renders` hold, per earlier render, the contexts of the `Evaluate`
calls made on an evaluator, the current render having made none yet. Querying
`Priority()` now yields the StateError exactly when the evaluator was unevaluated at the
start and none of those calls succeeded; once a call of an earlier render succeeded, the
query returns no error and the value of the last successful call. -/
theorem Priority_before_Evaluate (pe : priorityEvaluator)
    (renders : List (List ExecutionContext)) :
    ((pe.EvaluateAll renders.flatten).Priority.2 ≠ none
        ↔ pe.evaluated = false ∧ ∀ ctx ∈ renders.flatten, ∀ v, pe.evaluator ctx ≠ .ok v)
      ∧ (∀ e, (pe.EvaluateAll renders.flatten).Priority.2 = some e → e = priorityNotEvaluated)
      ∧ (∀ pre ctx post v, renders.flatten = pre ++ ctx :: post → pe.evaluator ctx = .ok v →
          (∀ c ∈ post, ∀ v2, pe.evaluator c ≠ .ok v2) →
          (pe.EvaluateAll renders.flatten).Priority = (v.Float, none)) := by
  refine ⟨?_, ?_, ?_⟩
  · have hflag := EvaluateAll_evaluated pe renders.flatten
    cases hq : (pe.EvaluateAll renders.flatten).evaluated with
    | false =>
      rw [Priority_of_unevaluated _ hq]
      simp only [ne_eq, reduceCtorEq, not_false_eq_true, true_iff]
      rw [hq] at hflag
      constructor
      · cases hpe : pe.evaluated with
        | false => rfl
        | true => exact absurd (hflag.mpr (Or.inl hpe)) (by simp)
      · intro ctx hc v hv
        exact absurd (hflag.mpr (Or.inr ⟨ctx, hc, v, hv⟩)) (by simp)
    | true =>
      rw [Priority_of_evaluated _ hq]
      simp only [ne_eq, not_true_eq_false, false_iff, not_and]
      intro hpe hall
      rw [hq] at hflag
      rcases hflag.mp rfl with h1 | ⟨ctx, hc, v, hv⟩
      · rw [hpe] at h1; cases h1
      · exact hall ctx hc v hv
  · intro e he
    cases hq : (pe.EvaluateAll renders.flatten).evaluated with
    | false =>
      rw [Priority_of_unevaluated _ hq] at he
      simp only [Option.some.injEq] at he
      exact he.symm
    | true =>
      rw [Priority_of_evaluated _ hq] at he
      cases he
  · intro pre ctx post v hl hv hpost
    rw [hl]
    exact EvaluateAll_last_ok pe pre ctx post v hv hpost

/-- C5 (amended) at the loop-counter expression: a new evaluator answers the StateError
while earlier renders made no call, and `2` after a render that evaluated it in
iteration `2` of a loop followed by a render whose call failed outside every loop. -/
theorem Priority_before_Evaluate_witness :
    ((priorityEvaluator.new counterExpr).EvaluateAll
        ([[], []] : List (List ExecutionContext)).flatten).Priority.2 ≠ none
      ∧ ((priorityEvaluator.new counterExpr).EvaluateAll
          [[ctxLoop7], [ctxNoLoop]].flatten).Priority = (⟨2⟩, none) :=
  ⟨(Priority_before_Evaluate (priorityEvaluator.new counterExpr) [[], []]).1.mpr
      ⟨rfl, by intro ctx hc; simp at hc⟩,
   (Priority_before_Evaluate (priorityEvaluator.new counterExpr) [[ctxLoop7], [ctxNoLoop]]).2.2
      [] ctxLoop7 [ctxNoLoop] ⟨⟨2⟩⟩ rfl rfl
      (by intro c hc v2; simp at hc; subst hc; simp [counterExpr, ctxNoLoop, priorityEvaluator.new])⟩

/-! ### The loop-position table -/

theorem lookup_filter_ne (m : List (Int × Int)) (k k2 : Int) (h : k2 ≠ k) :
    List.lookup k2 (m.filter (fun e => e.1 != k)) = List.lookup k2 m := by
  induction m with
  | nil => rfl
  | cons e rest ih =>
    obtain ⟨a, b⟩ := e
    by_cases hak : a = k
    · subst hak
      have hne : (k2 == a) = false := by simpa using h
      simp [List.filter_cons, List.lookup_cons, hne, ih]
    · have hk : ((a, b).1 != k) = true := by simpa using hak
      rw [List.filter_cons, hk]
      simp only [if_true, List.lookup_cons, ih]

theorem mapIndex_mapAssign (m : List (Int × Int)) (k v k2 : Int) :
    mapIndex (mapAssign m k v) k2 = if k2 = k then some v else mapIndex m k2 := by
  unfold mapIndex mapAssign
  by_cases h : k2 = k
  · subst h
    simp [List.lookup_cons]
  · have hne : (k2 == k) = false := by simpa using h
    simp only [List.lookup_cons, hne, h, if_false]
    exact lookup_filter_ne m k k2 h

theorem positions_foldl_isSome (frames : List tagForLoopInformation) (m : List (Int × Int))
    (k : Int) :
    (mapIndex (frames.foldl (fun m f => mapAssign m f.LoopIndex f.Counter0) m) k).isSome
      ↔ (mapIndex m k).isSome ∨ k ∈ frames.map (fun f => f.LoopIndex) := by
  induction frames generalizing m with
  | nil => simp
  | cons f rest ih =>
    rw [List.foldl_cons, ih, mapIndex_mapAssign]
    by_cases h : k = f.LoopIndex
    · simp [h]
    · have h2 : ¬ f.LoopIndex = k := fun e => h e.symm
      simp [h, h2]

theorem positions_foldl_skip (frames : List tagForLoopInformation) (m : List (Int × Int))
    (k : Int) (h : ∀ g ∈ frames, g.LoopIndex ≠ k) :
    mapIndex (frames.foldl (fun m f => mapAssign m f.LoopIndex f.Counter0) m) k
      = mapIndex m k := by
  induction frames generalizing m with
  | nil => rfl
  | cons f rest ih =>
    rw [List.foldl_cons, ih _ (fun g hg => h g (List.mem_cons_of_mem f hg)),
      mapIndex_mapAssign]
    have hf := h f (List.mem_cons_self f rest)
    rw [if_neg (fun e : k = f.LoopIndex => hf e.symm)]

theorem positions_foldl_last (pre : List tagForLoopInformation) (f : tagForLoopInformation)
    (post : List tagForLoopInformation) (m : List (Int × Int))
    (h : ∀ g ∈ post, g.LoopIndex ≠ f.LoopIndex) :
    mapIndex ((pre ++ f :: post).foldl (fun m f => mapAssign m f.LoopIndex f.Counter0) m)
        f.LoopIndex = some f.Counter0 := by
  rw [List.foldl_append, List.foldl_cons, positions_foldl_skip post _ _ h, mapIndex_mapAssign]
  simp

/-- C18: the table `loopPositions` built from the loop frame chain finds an entry exactly
for the `LoopIndex` values occurring in the chain; an identifier maps to the `Counter0`
of the last frame carrying it in innermost-first order, that is the outermost one; and
when all identifiers of the chain are distinct each maps to its own frame's `Counter0`. -/
theorem loopPositions_spec (ctx : ExecutionContext) :
    (∀ k, (mapIndex (loopPositions ctx) k).isSome
        ↔ k ∈ ctx.forloop.map (fun f => f.LoopIndex))
      ∧ (∀ pre f post, ctx.forloop = pre ++ f :: post →
          (∀ g ∈ post, g.LoopIndex ≠ f.LoopIndex) →
          mapIndex (loopPositions ctx) f.LoopIndex = some f.Counter0)
      ∧ ((ctx.forloop.map (fun f => f.LoopIndex)).Nodup →
          ∀ f ∈ ctx.forloop, mapIndex (loopPositions ctx) f.LoopIndex = some f.Counter0) := by
  refine ⟨?_, ?_, ?_⟩
  · intro k
    unfold loopPositions
    rw [positions_foldl_isSome]
    simp [mapIndex]
  · intro pre f post hl hpost
    unfold loopPositions
    rw [hl]
    exact positions_foldl_last pre f post [] hpost
  · intro hnd f hf
    obtain ⟨pre, post, hl⟩ := List.append_of_mem hf
    unfold loopPositions
    rw [hl]
    apply positions_foldl_last
    intro g hg heq
    rw [hl, List.map_append, List.map_cons] at hnd
    have hnd2 := (List.nodup_append.mp hnd).2.1
    have hnn := (List.nodup_cons.mp hnd2).1
    apply hnn
    rw [← heq]
    exact List.mem_map_of_mem _ hg

/-- C18 at a chain where loop `3` occurs innermost (iteration `0`) and outermost
(iteration `8`): the table answers `8` for loop `3`. -/
theorem loopPositions_spec_witness :
    mapIndex (loopPositions ctxRepeatedLoop) 3 = some 8
      ∧ mapIndex (loopPositions ctxRepeatedLoop) 4 = some 1
      ∧ mapIndex (loopPositions ctxRepeatedLoop) 5 = none :=
  ⟨(loopPositions_spec ctxRepeatedLoop).2.1
      [{ LoopIndex := 3, Counter0 := 0 }, { LoopIndex := 4, Counter0 := 1 }]
      { LoopIndex := 3, Counter0 := 8 } [] rfl (by simp),
   by decide, by decide⟩

/-! ### Tracking index after UnsetTrackingIndex -/

/-- C19: `UnsetTrackingIndex` clears only the `Set` flag: after `SetTrackingIndex(i)` and
`UnsetTrackingIndex`, every chunk written by following `WriteChunk` calls carries
`{Index: i, Set: false}`; for `i` other than zero this differs from the tracking value
`{Index: 0, Set: false}` of a chunk written on a fresh writer. -/
theorem UnsetTrackingIndex_keeps_index (cw : chunkWriter) (i : Int) (s : String)
    (writes : List WriterOp) (hw : ∀ op ∈ writes, op.isWrite = true) :
    ((cw.SetTrackingIndex i).UnsetTrackingIndex).trackingIndex = { Index := i, Set := false }
      ∧ ((((cw.SetTrackingIndex i).UnsetTrackingIndex).run writes).WriteChunk s).chunks.getLast?
          = some { Value := s,
                   Priorities := cw.priorities,
                   TrackingIndex := { Index := i, Set := false } }
      ∧ (chunkWriter.fresh.WriteChunk s).chunks.getLast?
          = some { Value := s, Priorities := [], TrackingIndex := { Index := 0, Set := false } }
      ∧ (i ≠ 0 →
          ∀ c d, ((((cw.SetTrackingIndex i).UnsetTrackingIndex).run writes).WriteChunk s
              ).chunks.getLast? = some c →
            (chunkWriter.fresh.WriteChunk s).chunks.getLast? = some d →
            c.TrackingIndex ≠ d.TrackingIndex) := by
  have h1 : ((((cw.SetTrackingIndex i).UnsetTrackingIndex).run writes).WriteChunk s
      ).chunks.getLast?
        = some { Value := s,
                 Priorities := cw.priorities,
                 TrackingIndex := { Index := i, Set := false } } := by
    have ht := run_writes_tracking ((cw.SetTrackingIndex i).UnsetTrackingIndex) writes hw
    have hp := run_priorities ((cw.SetTrackingIndex i).UnsetTrackingIndex) writes
    simp only [chunkWriter.WriteChunk, List.getLast?_append, List.getLast?_singleton, ht, hp]
    rfl
  have h2 : (chunkWriter.fresh.WriteChunk s).chunks.getLast?
      = some { Value := s, Priorities := [], TrackingIndex := { Index := 0, Set := false } } := by
    simp [chunkWriter.WriteChunk, chunkWriter.fresh]
  refine ⟨rfl, h1, h2, ?_⟩
  intro hi c d hc hd
  rw [h1] at hc
  rw [h2] at hd
  simp only [Option.some.injEq] at hc hd
  rw [← hc, ← hd]
  intro heq
  simp only [TrackingIndex.mk.injEq, and_true] at heq
  exact hi heq

/-- C19 at index `4`: the chunk written after `SetTrackingIndex(4)` and
`UnsetTrackingIndex` carries `{4, false}`. -/
theorem UnsetTrackingIndex_keeps_index_witness :
    ((((chunkWriter.fresh.SetTrackingIndex 4).UnsetTrackingIndex).run
        [.WriteChunk "a"]).WriteChunk "b").chunks.getLast?
      = some { Value := "b", Priorities := chunkWriter.fresh.priorities,
               TrackingIndex := { Index := 4, Set := false } } :=
  (UnsetTrackingIndex_keeps_index chunkWriter.fresh 4 "b" [.WriteChunk "a"]
    (by decide)).2.1

/-! ### The writer after a failed SetChunkContext -/

theorem resolve_details (positions : List (Int × Int)) (p : Priority) (ls : List Int) :
    (ls = [] ∧ SetChunkContext.resolve positions p.details ls = (.nil, p.details))
      ∨ (∃ l rest pos, ls = l :: rest ∧ mapIndex positions l = some pos
          ∧ SetChunkContext.resolve positions p.details ls
              = (.panicked "assignment to entry in nil map", p.details))
      ∨ (∃ l rest, ls = l :: rest ∧ mapIndex positions l = none
          ∧ SetChunkContext.resolve positions p.details ls
              = (.err { Sender := "SetChunkContext",
                        OrigError := "Loop iteration position not found for loop index "
                          ++ toString l }, p.details)) := by
  cases ls with
  | nil => exact Or.inl ⟨rfl, rfl⟩
  | cons l rest =>
    cases h : mapIndex positions l with
    | none =>
      refine Or.inr (Or.inr ⟨l, rest, rfl, h, ?_⟩)
      simp [SetChunkContext.resolve, h]
    | some pos =>
      refine Or.inr (Or.inl ⟨l, rest, pos, rfl, h, ?_⟩)
      simp [SetChunkContext.resolve, h, Priority.details]

theorem SetChunkContext_loop_frame (positions : List (Int × Int)) (cw : chunkWriter)
    (ps : List Priority) :
    (SetChunkContext.loop positions cw ps).2.chunks = cw.chunks
      ∧ (SetChunkContext.loop positions cw ps).2.trackingIndex = cw.trackingIndex := by
  induction ps generalizing cw with
  | nil => exact ⟨rfl, rfl⟩
  | cons p rest ih =>
    have hd : ({ Value := p.Value, ClauseIndex := p.ClauseIndex, LoopStack := none }
        : PriorityDetails) = p.details := rfl
    rcases resolve_details positions p p.LoopStack with ⟨_, h⟩ | ⟨_, _, _, _, _, h⟩
        | ⟨_, _, _, _, h⟩
    · simp only [SetChunkContext.loop, hd, h]
      exact ih _
    · simp only [SetChunkContext.loop, hd, h]
      exact ⟨trivial, trivial⟩
    · simp only [SetChunkContext.loop, hd, h]
      exact ⟨trivial, trivial⟩

theorem SetChunkContext_loop_error (positions : List (Int × Int)) (cw : chunkWriter)
    (ps : List Priority) (e : Error)
    (h : (SetChunkContext.loop positions cw ps).1 = .err e) :
    ∃ pre p post, ps = pre ++ p :: post ∧ (∀ q ∈ pre, q.LoopStack = [])
      ∧ (∃ l rest, p.LoopStack = l :: rest ∧ mapIndex positions l = none)
      ∧ e.Sender = "SetChunkContext"
      ∧ (SetChunkContext.loop positions cw ps).2.priorities
          = cw.priorities ++ pre.map Priority.details := by
  induction ps generalizing cw with
  | nil => simp [SetChunkContext.loop] at h
  | cons p rest ih =>
    have hd : ({ Value := p.Value, ClauseIndex := p.ClauseIndex, LoopStack := none }
        : PriorityDetails) = p.details := rfl
    rcases resolve_details positions p p.LoopStack with ⟨hl, hr⟩ | ⟨_, _, _, _, _, hr⟩
        | ⟨l, rs, hl, hm, hr⟩
    · simp only [SetChunkContext.loop, hd, hr] at h ⊢
      obtain ⟨pre, q, post, hps, hpre, hq, hs, hp⟩ := ih _ h
      refine ⟨p :: pre, q, post, by rw [hps]; rfl, ?_, hq, hs, ?_⟩
      · intro r hr2
        rcases List.mem_cons.mp hr2 with rfl | hm
        · exact hl
        · exact hpre r hm
      · rw [hp]
        simp
    · simp only [SetChunkContext.loop, hd, hr] at h
      cases h
    · simp only [SetChunkContext.loop, hd, hr] at h ⊢
      simp only [Outcome.err.injEq] at h
      refine ⟨[], p, rest, rfl, by simp, ⟨l, rs, hl, hm⟩, ?_, by simp⟩
      rw [← h]

/-- C17 (as stated, fails): with an evaluated scope in no loop captured before a scope in
loop `7`, and no loop frame active, `SetChunkContext` returns the error of sender
`SetChunkContext` and leaves the Priority Details of the first scope in the writer's
list, which is therefore not empty; the chunk and the tracking index are untouched. -/
theorem SetChunkContext_keeps_resolved_entries :
    writerWithOldPriorities.SetChunkContext heapOuterThenLoop7 ctxNoLoop nodeCapturing01
      = (.err { Sender := "SetChunkContext",
                OrigError := "Loop iteration position not found for loop index 7" },
         { writerWithOldPriorities with
           priorities := [{ Value := ⟨1⟩, ClauseIndex := 0, LoopStack := none }] }) := by
  decide

/-- C17 (amended): whenever `SetChunkContext` returns an error, the accumulated chunks and
the tracking index are unchanged and the old priorities list is not retained: after the
StateError of `PriorityStack` the list is empty, and after the error of sender
`SetChunkContext` it holds the Priority Details, with nil loop maps, of exactly the
entries that precede the failing entry, whose first loop id is absent from the chain. -/
theorem SetChunkContext_error_state (cw : chunkWriter) (heap : Heap) (ctx : ExecutionContext)
    (n : nodeStateful) (e : Error) (h : (cw.SetChunkContext heap ctx n).1 = .err e) :
    (cw.SetChunkContext heap ctx n).2.chunks = cw.chunks
      ∧ (cw.SetChunkContext heap ctx n).2.trackingIndex = cw.trackingIndex
      ∧ ((n.PriorityStack heap).2 ≠ none →
          (n.PriorityStack heap).2 = some e ∧ (cw.SetChunkContext heap ctx n).2.priorities = [])
      ∧ ((n.PriorityStack heap).2 = none →
          ∃ pre p post, (n.PriorityStack heap).1 = pre ++ p :: post
            ∧ (∀ q ∈ pre, q.LoopStack = [])
            ∧ (∃ l rest, p.LoopStack = l :: rest ∧ mapIndex (loopPositions ctx) l = none)
            ∧ e.Sender = "SetChunkContext"
            ∧ (cw.SetChunkContext heap ctx n).2.priorities = pre.map Priority.details) := by
  unfold chunkWriter.SetChunkContext at h ⊢
  cases hps : n.PriorityStack heap with
  | mk ps oe =>
    cases oe with
    | some err =>
      simp only [hps] at h ⊢
      simp only [Outcome.err.injEq] at h
      refine ⟨trivial, trivial, ?_, ?_⟩
      · intro _
        exact ⟨by rw [h], trivial⟩
      · intro hc
        cases hc
    | none =>
      simp only [hps] at h ⊢
      have hf := SetChunkContext_loop_frame (loopPositions ctx)
        { cw with priorities := [] } ps
      refine ⟨hf.1, hf.2, ?_, ?_⟩
      · intro hc
        exact absurd rfl hc
      · intro _
        obtain ⟨pre, p, post, hl, hpre, hp, hs, hpr⟩ :=
          SetChunkContext_loop_error (loopPositions ctx) { cw with priorities := [] } ps e h
        exact ⟨pre, p, post, hl, hpre, hp, hs, by simpa using hpr⟩

/-- C17 (amended) at a node whose second captured evaluator is unevaluated: the call
fails with the StateError and leaves an empty priorities list, the chunk and the tracking
index of the writer as they were. -/
theorem SetChunkContext_error_state_witness :
    (writerWithOldPriorities.SetChunkContext heapSecondUnevaluated ctxNoLoop
        nodeCapturing01).2.chunks = writerWithOldPriorities.chunks
      ∧ (writerWithOldPriorities.SetChunkContext heapSecondUnevaluated ctxNoLoop
          nodeCapturing01).2.trackingIndex = writerWithOldPriorities.trackingIndex
      ∧ (writerWithOldPriorities.SetChunkContext heapSecondUnevaluated ctxNoLoop
          nodeCapturing01).2.priorities = [] :=
  ⟨(SetChunkContext_error_state writerWithOldPriorities heapSecondUnevaluated ctxNoLoop
      nodeCapturing01 priorityNotEvaluated (by decide)).1,
   (SetChunkContext_error_state writerWithOldPriorities heapSecondUnevaluated ctxNoLoop
      nodeCapturing01 priorityNotEvaluated (by decide)).2.1,
   ((SetChunkContext_error_state writerWithOldPriorities heapSecondUnevaluated ctxNoLoop
      nodeCapturing01 priorityNotEvaluated (by decide)).2.2.1 (by decide)).2⟩

/-! ### nodeDocument.Execute and NodeWrapper.Execute -/

theorem doc_loop_cons_ok (ctx : ExecutionContext) (n : nodeStateful)
    (rest : List nodeStateful) (w : World) (h : (nodeStep ctx n w).1 = .nil) :
    nodeDocument.Execute.loop ctx (n :: rest) w
      = nodeDocument.Execute.loop ctx rest (nodeStep ctx n w).2 := by
  unfold nodeStep at h ⊢
  rw [nodeDocument.Execute.loop]
  rcases hS : w.writer.SetChunkContext w.heap ctx n with ⟨o, wr⟩
  rw [hS] at h
  cases o with
  | nil =>
    simp only at h ⊢
    rcases hE : n.INode ctx { w with writer := wr } with ⟨o2, w2⟩
    rw [hE] at h
    cases o2 with
    | nil => rfl
    | err e => cases h
    | panicked m => cases h
  | err e => cases h
  | panicked m => cases h

theorem doc_loop_cons_fail (ctx : ExecutionContext) (n : nodeStateful)
    (rest : List nodeStateful) (w : World) (h : (nodeStep ctx n w).1 ≠ .nil) :
    nodeDocument.Execute.loop ctx (n :: rest) w = nodeStep ctx n w := by
  unfold nodeStep at h ⊢
  rw [nodeDocument.Execute.loop]
  rcases hS : w.writer.SetChunkContext w.heap ctx n with ⟨o, wr⟩
  rw [hS] at h
  cases o with
  | nil =>
    dsimp only at h ⊢
    rcases hE : n.INode ctx { w with writer := wr } with ⟨o2, w2⟩
    rw [hE] at h
    cases o2 with
    | nil => exact absurd rfl h
    | err e => rfl
    | panicked m => rfl
  | err e => rfl
  | panicked m => rfl

theorem wrapper_loop_eq_doc_loop (ctx : ExecutionContext) (nodes : List nodeStateful)
    (w : World) :
    NodeWrapper.Execute.loop ctx nodes w = nodeDocument.Execute.loop ctx nodes w := by
  induction nodes generalizing w with
  | nil => rfl
  | cons n rest ih =>
    rw [NodeWrapper.Execute.loop, nodeDocument.Execute.loop]
    rcases w.writer.SetChunkContext w.heap ctx n with ⟨o, wr⟩
    cases o with
    | nil =>
      simp only
      rcases n.INode ctx { w with writer := wr } with ⟨o2, w2⟩
      cases o2 with
      | nil => exact ih w2
      | err e => rfl
      | panicked m => rfl
    | err e => rfl
    | panicked m => rfl

theorem stepsFold_cons (ctx : ExecutionContext) (n : nodeStateful) (rest : List nodeStateful)
    (w : World) : stepsFold ctx (n :: rest) w = stepsFold ctx rest (nodeStep ctx n w).2 := rfl

theorem stepsFold_append (ctx : ExecutionContext) (pre post : List nodeStateful) (w : World) :
    stepsFold ctx (pre ++ post) w = stepsFold ctx post (stepsFold ctx pre w) := by
  simp [stepsFold, List.foldl_append]

theorem doc_loop_of_succeed (ctx : ExecutionContext) (nodes : List nodeStateful) (w : World)
    (h : stepsSucceed ctx nodes w) :
    nodeDocument.Execute.loop ctx nodes w = (.nil, stepsFold ctx nodes w) := by
  induction nodes generalizing w with
  | nil => rfl
  | cons n rest ih =>
    rw [doc_loop_cons_ok ctx n rest w h.1, stepsFold_cons]
    exact ih _ h.2

theorem doc_loop_append (ctx : ExecutionContext) (pre post : List nodeStateful) (w : World)
    (h : stepsSucceed ctx pre w) :
    nodeDocument.Execute.loop ctx (pre ++ post) w
      = nodeDocument.Execute.loop ctx post (stepsFold ctx pre w) := by
  induction pre generalizing w with
  | nil => rfl
  | cons n rest ih =>
    rw [List.cons_append, doc_loop_cons_ok ctx n _ w h.1, stepsFold_cons]
    exact ih _ h.2

theorem chunkWriter_SetChunkContext_frame (cw : chunkWriter) (heap : Heap)
    (ctx : ExecutionContext) (n : nodeStateful) :
    (cw.SetChunkContext heap ctx n).2.chunks = cw.chunks
      ∧ (cw.SetChunkContext heap ctx n).2.trackingIndex = cw.trackingIndex := by
  unfold chunkWriter.SetChunkContext
  rcases n.PriorityStack heap with ⟨ps, oe⟩
  cases oe with
  | some err => exact ⟨rfl, rfl⟩
  | none => exact SetChunkContext_loop_frame (loopPositions ctx) { cw with priorities := [] } ps

theorem TemplateWriter_SetChunkContext_Chunks (w : TemplateWriter) (heap : Heap)
    (ctx : ExecutionContext) (n : nodeStateful) :
    (w.SetChunkContext heap ctx n).2.Chunks = w.Chunks := by
  have h := (chunkWriter_SetChunkContext_frame w.chunkWriter heap ctx n).1
  cases w <;>
    simpa [TemplateWriter.SetChunkContext, TemplateWriter.withChunkWriter,
      TemplateWriter.Chunks, TemplateWriter.chunkWriter, chunkWriter.Chunks] using h

theorem nodeStep_Chunks (ctx : ExecutionContext) (n : nodeStateful) (w : World)
    (hn : ∀ w2 : World, ∃ t, (n.INode ctx w2).2.writer.Chunks = w2.writer.Chunks ++ t) :
    ∃ t, (nodeStep ctx n w).2.writer.Chunks = w.writer.Chunks ++ t := by
  have hS := TemplateWriter_SetChunkContext_Chunks w.writer w.heap ctx n
  unfold nodeStep
  rcases hR : w.writer.SetChunkContext w.heap ctx n with ⟨o, wr⟩
  rw [hR] at hS
  cases o with
  | nil =>
    obtain ⟨t, ht⟩ := hn { w with writer := wr }
    exact ⟨t, by rw [ht]; simp only; rw [← hS]⟩
  | err e => exact ⟨[], by simpa using hS⟩
  | panicked m => exact ⟨[], by simpa using hS⟩

theorem stepsFold_Chunks (ctx : ExecutionContext) (nodes : List nodeStateful) (w : World)
    (hn : ∀ n ∈ nodes, ∀ w2 : World,
      ∃ t, (n.INode ctx w2).2.writer.Chunks = w2.writer.Chunks ++ t) :
    ∃ t, (stepsFold ctx nodes w).writer.Chunks = w.writer.Chunks ++ t := by
  induction nodes generalizing w with
  | nil => exact ⟨[], by simp [stepsFold]⟩
  | cons n rest ih =>
    obtain ⟨t1, h1⟩ := nodeStep_Chunks ctx n w (hn n (List.mem_cons_self n rest))
    obtain ⟨t2, h2⟩ := ih (nodeStep ctx n w).2 (fun m hm => hn m (List.mem_cons_of_mem n hm))
    exact ⟨t1 ++ t2, by rw [stepsFold_cons, h2, h1, List.append_assoc]⟩

/-- C11: `nodeDocument.Execute` and `NodeWrapper.Execute` compute the same result on every
node list. When every step succeeds, both return nil and leave the left-to-right fold of
the steps, a step being `SetChunkContext(ctx, node)` followed by `node.Execute` on the
writer it leaves; the walk over `pre ++ post` is the walk over `post` continued from the
walk over `pre`; and, for nodes that only append chunks, the chunks present after the
nodes of `pre` stay in front of those written by the nodes of `post`. -/
theorem Execute_is_fold_of_steps (ctx : ExecutionContext) (nodes : List nodeStateful)
    (w : World) (Endtag : String) :
    nodeDocument.Execute { Nodes := nodes } ctx w
        = NodeWrapper.Execute { Endtag := Endtag, nodes := nodes } ctx w
      ∧ (stepsSucceed ctx nodes w →
          nodeDocument.Execute { Nodes := nodes } ctx w = (.nil, stepsFold ctx nodes w)
            ∧ NodeWrapper.Execute { Endtag := Endtag, nodes := nodes } ctx w
                = (.nil, stepsFold ctx nodes w)
            ∧ (∀ n w2, (nodeStep ctx n w2).1 = .nil →
                (w2.writer.SetChunkContext w2.heap ctx n).1 = .nil
                  ∧ nodeStep ctx n w2
                      = n.INode ctx
                          { w2 with writer := (w2.writer.SetChunkContext w2.heap ctx n).2 })
            ∧ (∀ pre post, nodes = pre ++ post →
                stepsFold ctx nodes w = stepsFold ctx post (stepsFold ctx pre w)
                  ∧ ((∀ n ∈ nodes, ∀ w2 : World,
                        ∃ t, (n.INode ctx w2).2.writer.Chunks = w2.writer.Chunks ++ t) →
                      ∃ t1 t2, (stepsFold ctx pre w).writer.Chunks = w.writer.Chunks ++ t1
                        ∧ (stepsFold ctx nodes w).writer.Chunks
                            = (stepsFold ctx pre w).writer.Chunks ++ t2))) := by
  refine ⟨?_, ?_⟩
  · unfold nodeDocument.Execute NodeWrapper.Execute
    exact (wrapper_loop_eq_doc_loop ctx nodes w).symm
  · intro hs
    refine ⟨doc_loop_of_succeed ctx nodes w hs, ?_, ?_, ?_⟩
    · unfold NodeWrapper.Execute
      rw [wrapper_loop_eq_doc_loop]
      exact doc_loop_of_succeed ctx nodes w hs
    · intro n w2 hstep
      unfold nodeStep at hstep ⊢
      rcases hS : w2.writer.SetChunkContext w2.heap ctx n with ⟨o, wr⟩
      rw [hS] at hstep
      cases o with
      | nil => exact ⟨rfl, rfl⟩
      | err e => cases hstep
      | panicked m => cases hstep
    · intro pre post hl
      refine ⟨by rw [hl, stepsFold_append], ?_⟩
      intro hn
      have hpre : ∀ n ∈ pre, ∀ w2 : World,
          ∃ t, (n.INode ctx w2).2.writer.Chunks = w2.writer.Chunks ++ t :=
        fun n hm => hn n (by rw [hl]; exact List.mem_append_left post hm)
      have hpost : ∀ n ∈ post, ∀ w2 : World,
          ∃ t, (n.INode ctx w2).2.writer.Chunks = w2.writer.Chunks ++ t :=
        fun n hm => hn n (by rw [hl]; exact List.mem_append_right pre hm)
      obtain ⟨t1, h1⟩ := stepsFold_Chunks ctx pre w hpre
      obtain ⟨t2, h2⟩ := stepsFold_Chunks ctx post (stepsFold ctx pre w) hpost
      exact ⟨t1, t2, h1, by rw [hl, stepsFold_append, h2]⟩

/-- C11 on the document of the two text nodes `A` and `B`: both steps succeed and the
walk leaves the chunks `A`, `B` in document order. -/
theorem Execute_is_fold_of_steps_witness :
    (nodeDocument.Execute { Nodes := [nodeTextA, nodeTextB] } ctxNoLoop
        (worldBuffered heapNested)).1 = .nil
      ∧ (nodeDocument.Execute { Nodes := [nodeTextA, nodeTextB] } ctxNoLoop
          (worldBuffered heapNested)).2.writer.Chunks.map (fun c => c.Value) = ["A", "B"] :=
  ⟨congrArg Prod.fst
      ((Execute_is_fold_of_steps ctxNoLoop [nodeTextA, nodeTextB] (worldBuffered heapNested)
        "").2 ⟨by decide, by decide, trivial⟩).1,
   by decide⟩

/-- C12: when the steps over `pre` succeed and the step of the next node `n` fails,
`nodeDocument.Execute` and `NodeWrapper.Execute` return that first failure and stop. If
`SetChunkContext` for `n` fails, the result is that failure with the world reached after
`pre`, only the writer being the one `SetChunkContext` left: `n` is not executed, and
neither its `Execute` nor the nodes after it have any influence. If `SetChunkContext`
succeeds and `n.Execute` fails, the result is that of `n.Execute`, whatever follows. -/
theorem Execute_stops_at_first_error (ctx : ExecutionContext) (pre : List nodeStateful)
    (n : nodeStateful) (post : List nodeStateful) (w : World) (Endtag : String)
    (hpre : stepsSucceed ctx pre w) :
    ((((stepsFold ctx pre w).writer.SetChunkContext (stepsFold ctx pre w).heap ctx n).1 ≠ .nil →
        nodeDocument.Execute { Nodes := pre ++ n :: post } ctx w
            = (((stepsFold ctx pre w).writer.SetChunkContext (stepsFold ctx pre w).heap ctx n).1,
               { stepsFold ctx pre w with
                 writer := ((stepsFold ctx pre w).writer.SetChunkContext
                   (stepsFold ctx pre w).heap ctx n).2 })
          ∧ ∀ exec2 post2,
              nodeDocument.Execute
                  { Nodes := pre ++ { n with INode := exec2 } :: post2 } ctx w
                = nodeDocument.Execute { Nodes := pre ++ n :: post } ctx w)
      ∧ (((stepsFold ctx pre w).writer.SetChunkContext (stepsFold ctx pre w).heap ctx n).1 = .nil →
          (n.INode ctx
              { stepsFold ctx pre w with
                writer := ((stepsFold ctx pre w).writer.SetChunkContext
                  (stepsFold ctx pre w).heap ctx n).2 }).1 ≠ .nil →
          ∀ post2,
            nodeDocument.Execute { Nodes := pre ++ n :: post2 } ctx w
              = n.INode ctx
                  { stepsFold ctx pre w with
                    writer := ((stepsFold ctx pre w).writer.SetChunkContext
                      (stepsFold ctx pre w).heap ctx n).2 }))
      ∧ NodeWrapper.Execute { Endtag := Endtag, nodes := pre ++ n :: post } ctx w
          = nodeDocument.Execute { Nodes := pre ++ n :: post } ctx w := by
  have hsplit : ∀ (m : nodeStateful) (rest : List nodeStateful),
      (nodeStep ctx m (stepsFold ctx pre w)).1 ≠ .nil →
      nodeDocument.Execute { Nodes := pre ++ m :: rest } ctx w
        = nodeStep ctx m (stepsFold ctx pre w) := by
    intro m rest hm
    unfold nodeDocument.Execute
    rw [doc_loop_append ctx pre _ w hpre]
    exact doc_loop_cons_fail ctx m rest _ hm
  refine ⟨⟨?_, ?_⟩, ?_⟩
  · intro hS
    have hstep : ∀ exec2 : INode, nodeStep ctx { n with INode := exec2 } (stepsFold ctx pre w)
        = (((stepsFold ctx pre w).writer.SetChunkContext (stepsFold ctx pre w).heap ctx n).1,
           { stepsFold ctx pre w with
             writer := ((stepsFold ctx pre w).writer.SetChunkContext
               (stepsFold ctx pre w).heap ctx n).2 }) := by
      intro exec2
      have hsame : (stepsFold ctx pre w).writer.SetChunkContext (stepsFold ctx pre w).heap ctx
          { n with INode := exec2 }
          = (stepsFold ctx pre w).writer.SetChunkContext (stepsFold ctx pre w).heap ctx n := rfl
      unfold nodeStep
      rw [hsame]
      rcases hR : (stepsFold ctx pre w).writer.SetChunkContext (stepsFold ctx pre w).heap ctx n
        with ⟨o, wr⟩
      rw [hR] at hS
      cases o with
      | nil => exact absurd rfl hS
      | err e => rfl
      | panicked m => rfl
    have hfail : ∀ exec2 : INode,
        (nodeStep ctx { n with INode := exec2 } (stepsFold ctx pre w)).1 ≠ .nil := by
      intro exec2
      rw [hstep exec2]
      exact hS
    have hn : nodeDocument.Execute { Nodes := pre ++ n :: post } ctx w
        = (((stepsFold ctx pre w).writer.SetChunkContext (stepsFold ctx pre w).heap ctx n).1,
           { stepsFold ctx pre w with
             writer := ((stepsFold ctx pre w).writer.SetChunkContext
               (stepsFold ctx pre w).heap ctx n).2 }) := by
      rw [hsplit n post (hfail n.INode)]
      exact hstep n.INode
    refine ⟨hn, ?_⟩
    intro exec2 post2
    rw [hn, hsplit _ post2 (hfail exec2)]
    exact hstep exec2
  · intro hS hE post2
    have hstep : nodeStep ctx n (stepsFold ctx pre w)
        = n.INode ctx
            { stepsFold ctx pre w with
              writer := ((stepsFold ctx pre w).writer.SetChunkContext
                (stepsFold ctx pre w).heap ctx n).2 } := by
      unfold nodeStep
      rcases hR : (stepsFold ctx pre w).writer.SetChunkContext (stepsFold ctx pre w).heap ctx n
        with ⟨o, wr⟩
      rw [hR] at hS
      cases o with
      | nil => rfl
      | err e => cases hS
      | panicked m => cases hS
    rw [hsplit n post2 (by rw [hstep]; exact hE)]
    exact hstep
  · unfold NodeWrapper.Execute nodeDocument.Execute
    exact wrapper_loop_eq_doc_loop ctx _ w

/-- C12 on the document `A`, a node whose captured evaluator is unevaluated, `B`: the walk
returns the StateError of the second node's `SetChunkContext`; only the chunk `A` was
written, so neither the failing node nor `B` ran. -/
theorem Execute_stops_at_first_error_witness :
    (nodeDocument.Execute { Nodes := [nodeTextA] ++ nodeQuery1 :: [nodeTextB] } ctxNoLoop
        (worldBuffered heapSecondUnevaluated)).1 = .err priorityNotEvaluated
      ∧ (nodeDocument.Execute { Nodes := [nodeTextA] ++ nodeQuery1 :: [nodeTextB] } ctxNoLoop
          (worldBuffered heapSecondUnevaluated)).2.writer.Chunks.map (fun c => c.Value)
          = ["A"] :=
  ⟨congrArg Prod.fst
      (((Execute_stops_at_first_error ctxNoLoop [nodeTextA] nodeQuery1 [nodeTextB]
        (worldBuffered heapSecondUnevaluated) "" ⟨by decide, trivial⟩).1.1 (by decide)).1),
   by decide⟩

/-! ### Render modes -/

/-- C13: when `execute` over a new buffered writer fails with error `e`, every buffered
render mode returns `e` and nothing else: `newBufferAndExecute` returns `(nil, nil, e)`,
`Execute` the empty string, `ExecuteBytes` and `ExecuteChunks` nil, and `ExecuteWriter`
leaves the caller's writer as it was. -/
theorem buffered_modes_discard_on_error (tpl : Template) (check : Context → Option Error)
    (context : Option Context) (heap : Heap) (writer : List UInt8) (e : Error)
    (h : (tpl.execute check context
        { heap := heap, writer := .buffered templateWriterBuffer.fresh }).1 = .err e) :
    (tpl.newBufferAndExecute check context heap).1 = (none, [], .err e)
      ∧ (tpl.Execute check context heap).1 = ([], .err e)
      ∧ (tpl.ExecuteBytes check context heap).1 = ([], .err e)
      ∧ (tpl.ExecuteChunks check context heap).1 = ([], .err e)
      ∧ (tpl.ExecuteWriter check context heap writer).1 = (.err e, writer) := by
  have hb : tpl.newBufferAndExecute check context heap
      = ((none, [], .err e),
         (tpl.execute check context
            { heap := heap, writer := .buffered templateWriterBuffer.fresh }).2.heap) := by
    unfold Template.newBufferAndExecute
    rcases hx : tpl.execute check context
      { heap := heap, writer := .buffered templateWriterBuffer.fresh } with ⟨o, w2⟩
    rw [hx] at h
    simp only at h
    subst h
    rfl
  refine ⟨by rw [hb], ?_, ?_, ?_, ?_⟩
  · unfold Template.Execute; rw [hb]
  · unfold Template.ExecuteBytes; rw [hb]
  · unfold Template.ExecuteChunks; rw [hb]
  · unfold Template.ExecuteWriter; rw [hb]

/-- C13 on the template of the text `A` followed by a failing node, with a caller's
writer holding the byte `1`: the walk fails after two chunks were accumulated, and the
buffered modes return the error with no chunk and no byte. -/
theorem buffered_modes_discard_on_error_witness :
    (templateFailing.execute acceptAll none
        (worldBuffered heapNested)).2.writer.Chunks.map (fun c => c.Value) = ["A", "E"]
      ∧ (templateFailing.newBufferAndExecute acceptAll none heapNested).1
          = (none, [], .err { Sender := "execution", OrigError := "failed" })
      ∧ (templateFailing.ExecuteWriter acceptAll none heapNested [1]).1
          = (.err { Sender := "execution", OrigError := "failed" }, [1]) :=
  ⟨by decide,
   (buffered_modes_discard_on_error templateFailing acceptAll none heapNested [1]
      { Sender := "execution", OrigError := "failed" } (by decide)).1,
   (buffered_modes_discard_on_error templateFailing acceptAll none heapNested [1]
      { Sender := "execution", OrigError := "failed" } (by decide)).2.2.2.2⟩

/-! ### The unbuffered writer against the buffered writer -/

theorem toBuffered_content (w : TemplateWriter) :
    w.toBuffered.chunkWriter = w.chunkWriter ∧ w.toBuffered.bytes = w.bytes
      ∧ w.toBuffered.Chunks = w.Chunks := by
  cases w <;> exact ⟨rfl, rfl, rfl⟩

theorem toBuffered_SetChunkContext (w : TemplateWriter) (heap : Heap) (ctx : ExecutionContext)
    (n : nodeStateful) :
    w.toBuffered.SetChunkContext heap ctx n
      = ((w.SetChunkContext heap ctx n).1, (w.SetChunkContext heap ctx n).2.toBuffered) := by
  cases w <;> rfl

theorem run_toBuffered (ops : List TemplateWriterOp) (w : TemplateWriter) :
    (TemplateWriter.run w ops).toBuffered = TemplateWriter.run w.toBuffered ops := by
  induction ops generalizing w with
  | nil => rfl
  | cons op rest ih =>
    cases op with
    | WriteString s =>
      rw [TemplateWriter.run, TemplateWriter.run, ih]
      cases w <;> rfl
    | Write b =>
      rw [TemplateWriter.run, TemplateWriter.run, ih]
      cases w <;> rfl
    | SetChunkContext heap ctx n =>
      rw [TemplateWriter.run, TemplateWriter.run, toBuffered_SetChunkContext]
      rcases w.SetChunkContext heap ctx n with ⟨o, w2⟩
      cases o with
      | nil => exact ih w2
      | err e => exact ih w2
      | panicked m => rfl
    | SetTrackingIndex i =>
      rw [TemplateWriter.run, TemplateWriter.run, ih]
      cases w <;> rfl
    | UnsetTrackingIndex =>
      rw [TemplateWriter.run, TemplateWriter.run, ih]
      cases w <;> rfl

/-- C14: for every sequence of `WriteString`, `Write`, `SetChunkContext`,
`SetTrackingIndex` and `UnsetTrackingIndex` calls, the fresh unbuffered writer over an
accepting sink and the fresh buffered writer accumulate the same chunk sequence, and the
bytes forwarded to the sink are the buffer's contents. -/
theorem unbuffered_matches_buffered (ops : List TemplateWriterOp) :
    (TemplateWriter.run (.unbuffered templateWriterIO.fresh) ops).Chunks
        = (TemplateWriter.run (.buffered templateWriterBuffer.fresh) ops).Chunks
      ∧ (TemplateWriter.run (.unbuffered templateWriterIO.fresh) ops).bytes
          = (TemplateWriter.run (.buffered templateWriterBuffer.fresh) ops).bytes
      ∧ (TemplateWriter.run (.unbuffered templateWriterIO.fresh) ops).chunkWriter
          = (TemplateWriter.run (.buffered templateWriterBuffer.fresh) ops).chunkWriter := by
  have hc := toBuffered_content (TemplateWriter.run (.unbuffered templateWriterIO.fresh) ops)
  have hr := run_toBuffered ops (.unbuffered templateWriterIO.fresh)
  have hf : (TemplateWriter.unbuffered templateWriterIO.fresh).toBuffered
      = .buffered templateWriterBuffer.fresh := rfl
  rw [hr, hf] at hc
  exact ⟨hc.2.2.symm, hc.2.1.symm, hc.1.symm⟩

/-! ### tagPriorityNode.Execute -/

theorem World_update_self (w : World) (a : Nat) :
    ({ w with heap := Function.update w.heap a (w.heap a) } : World) = w := by
  rw [Function.update_eq_self]

/-- On expressions without effects, `tagPriorityNode.Execute` first runs `Evaluate` of the
scope's evaluator on the context. When that fails with `e`, it returns `e` itself and the world is unchanged
(writer and evaluators), whatever the body is, so no body node ran. When it succeeds,
the result is that of the body's `Execute` started from the world in which the one
`Evaluate` call has stored its value, the writer being untouched until then. -/
theorem tagPriorityNode_Execute_spec (node : tagPriorityNode) (ctx : ExecutionContext)
    (w : World) :
    (∀ e, ((w.heap node.priorityEvaluator).Evaluate ctx).2 = some e →
        node.Execute ctx w = (.err e, w)
          ∧ ∀ wrapper2, ({ node with wrapper := wrapper2 } : tagPriorityNode).Execute ctx w
              = (.err e, w))
      ∧ (((w.heap node.priorityEvaluator).Evaluate ctx).2 = none →
          node.Execute ctx w
            = node.wrapper.Execute ctx
                { heap := Function.update w.heap node.priorityEvaluator
                    ((w.heap node.priorityEvaluator).Evaluate ctx).1,
                  writer := w.writer })
      ∧ (∀ e, (w.heap node.priorityEvaluator).evaluator ctx = .error e →
          node.Execute ctx w = (.err e, w))
      ∧ (∀ v, (w.heap node.priorityEvaluator).evaluator ctx = .ok v →
          node.Execute ctx w
            = node.wrapper.Execute ctx
                { heap := Function.update w.heap node.priorityEvaluator
                    { w.heap node.priorityEvaluator with
                      priority := v.Float, evaluated := true },
                  writer := w.writer }) := by
  have herr : ∀ (nd : tagPriorityNode) e, nd.priorityEvaluator = node.priorityEvaluator →
      (w.heap node.priorityEvaluator).evaluator ctx = .error e →
      nd.Execute ctx w = (.err e, w) := by
    intro nd e hnd he
    unfold tagPriorityNode.Execute
    rw [hnd, Evaluate_of_error _ ctx e he]
    simp only
    rw [World_update_self]
  have hok : ∀ v, (w.heap node.priorityEvaluator).evaluator ctx = .ok v →
      node.Execute ctx w
        = node.wrapper.Execute ctx
            { heap := Function.update w.heap node.priorityEvaluator
                { w.heap node.priorityEvaluator with priority := v.Float, evaluated := true },
              writer := w.writer } := by
    intro v hv
    unfold tagPriorityNode.Execute
    rw [Evaluate_of_ok _ ctx v hv]
  refine ⟨?_, ?_, fun e he => herr node e rfl he, hok⟩
  · intro e he
    cases hx : (w.heap node.priorityEvaluator).evaluator ctx with
    | error e2 =>
      rw [Evaluate_of_error _ ctx e2 hx] at he
      simp only [Option.some.injEq] at he
      subst he
      exact ⟨herr node e2 rfl hx, fun wrapper2 => herr _ e2 rfl hx⟩
    | ok v =>
      rw [Evaluate_of_ok _ ctx v hx] at he
      cases he
  · intro hn
    cases hx : (w.heap node.priorityEvaluator).evaluator ctx with
    | error e2 =>
      rw [Evaluate_of_error _ ctx e2 hx] at hn
      cases hn
    | ok v =>
      rw [hok v hx, Evaluate_of_ok _ ctx v hx]

/-- The scope around the text `A`: over a failing expression the scope returns the
expression's error and writes nothing; over the constant `5` the body runs after the
evaluation and its chunk carries the value `5`. -/
theorem tagPriorityNode_Execute_spec_witness :
    (scopeNode.Execute ctxNoLoop
        (worldBuffered (fun _ => priorityEvaluator.new failingExpr))).1
        = .err { Sender := "execution", OrigError := "unknown variable" }
      ∧ (scopeNode.Execute ctxNoLoop
          (worldBuffered (fun _ => priorityEvaluator.new failingExpr))).2.writer
          = (worldBuffered (fun _ => priorityEvaluator.new failingExpr)).writer
      ∧ (scopeNode.Execute ctxNoLoop (worldBuffered (fun _ => evaluatorNew))).2.writer.Chunks
          = [{ Value := "A",
               Priorities := [{ Value := ⟨5⟩, ClauseIndex := 0, LoopStack := none }],
               TrackingIndex := { Index := 0, Set := false } }] :=
  ⟨congrArg Prod.fst
      ((tagPriorityNode_Execute_spec scopeNode ctxNoLoop
        (worldBuffered (fun _ => priorityEvaluator.new failingExpr))).2.2.1
        { Sender := "execution", OrigError := "unknown variable" } rfl),
   congrArg (fun r => r.2.writer)
      ((tagPriorityNode_Execute_spec scopeNode ctxNoLoop
        (worldBuffered (fun _ => priorityEvaluator.new failingExpr))).2.2.1
        { Sender := "execution", OrigError := "unknown variable" } rfl),
   by decide⟩

/-! ### Clause index and loop-id list during a render -/

theorem Evaluate_keeps (pe : priorityEvaluator) (ctx : ExecutionContext) :
    (pe.Evaluate ctx).1.clauseIndex = pe.clauseIndex
      ∧ (pe.Evaluate ctx).1.loopStack = pe.loopStack := by
  unfold priorityEvaluator.Evaluate
  cases pe.evaluator ctx <;> exact ⟨rfl, rfl⟩

theorem EvaluateAll_keeps (pe : priorityEvaluator) (calls : List ExecutionContext) :
    (pe.EvaluateAll calls).clauseIndex = pe.clauseIndex
      ∧ (pe.EvaluateAll calls).loopStack = pe.loopStack := by
  induction calls generalizing pe with
  | nil => exact ⟨rfl, rfl⟩
  | cons c rest ih =>
    rw [EvaluateAll_cons]
    exact ⟨(ih _).1.trans (Evaluate_keeps pe c).1, (ih _).2.trans (Evaluate_keeps pe c).2⟩

theorem keepsScopes_refl (h : Heap) : keepsScopes h h :=
  fun _ => ⟨rfl, rfl⟩

theorem keepsScopes_trans (h1 h2 h3 : Heap) (a : keepsScopes h1 h2) (b : keepsScopes h2 h3) :
    keepsScopes h1 h3 :=
  fun x => ⟨(b x).1.trans (a x).1, (b x).2.trans (a x).2⟩

theorem keepsScopes_Evaluate (h : Heap) (p : Nat) (ctx : ExecutionContext) :
    keepsScopes h (Function.update h p ((h p).Evaluate ctx).1) := by
  intro a
  by_cases hap : a = p
  · subst hap
    rw [Function.update_same]
    exact Evaluate_keeps (h a) ctx
  · rw [Function.update_noteq hap]
    exact ⟨rfl, rfl⟩

theorem nodeStep_keeps (ctx : ExecutionContext) (n : nodeStateful) (w : World)
    (hn : ∀ w2 : World, keepsScopes w2.heap (n.INode ctx w2).2.heap) :
    keepsScopes w.heap (nodeStep ctx n w).2.heap := by
  unfold nodeStep
  rcases w.writer.SetChunkContext w.heap ctx n with ⟨o, wr⟩
  cases o with
  | nil => exact hn { w with writer := wr }
  | err e => exact keepsScopes_refl _
  | panicked m => exact keepsScopes_refl _

theorem doc_loop_keeps (ctx : ExecutionContext) (nodes : List nodeStateful) (w : World)
    (hn : ∀ n ∈ nodes, ∀ w2 : World, keepsScopes w2.heap (n.INode ctx w2).2.heap) :
    keepsScopes w.heap (nodeDocument.Execute.loop ctx nodes w).2.heap := by
  induction nodes generalizing w with
  | nil => exact keepsScopes_refl _
  | cons n rest ih =>
    have hstep := nodeStep_keeps ctx n w (hn n (List.mem_cons_self n rest))
    by_cases hs : (nodeStep ctx n w).1 = .nil
    · rw [doc_loop_cons_ok ctx n rest w hs]
      exact keepsScopes_trans _ _ _ hstep
        (ih _ (fun m hm => hn m (List.mem_cons_of_mem n hm)))
    · rw [doc_loop_cons_fail ctx n rest w hs]
      exact hstep

/-- C16: `Evaluate`, successful or failing, leaves the clause index and the loop-id list of
its evaluator as they were, and so does any sequence of `Evaluate` calls; the entries
`PriorityStack` returns carry the clause indexes and loop-id lists the evaluators hold;
and the evaluators left by `nodeDocument.Execute`, `NodeWrapper.Execute` and
`tagPriorityNode.Execute`, with the `SetChunkContext` and `Evaluate` calls they make,
hold the clause indexes and loop-id lists they held before, provided the executed nodes
keep them too. `Priority`, `PriorityStack` and `SetChunkContext` only read evaluators. -/
theorem render_keeps_clause_and_loops (pe : priorityEvaluator) (ctx : ExecutionContext)
    (calls : List ExecutionContext) (nodes : List nodeStateful) (w : World) (Endtag : String)
    (node : tagPriorityNode) (n : nodeStateful) :
    ((pe.Evaluate ctx).1.clauseIndex = pe.clauseIndex
        ∧ (pe.Evaluate ctx).1.loopStack = pe.loopStack)
      ∧ ((pe.Evaluate ctx).1.ClauseIndex = pe.ClauseIndex
          ∧ (pe.Evaluate ctx).1.LoopStack = pe.LoopStack)
      ∧ ((pe.EvaluateAll calls).clauseIndex = pe.clauseIndex
          ∧ (pe.EvaluateAll calls).loopStack = pe.loopStack)
      ∧ (∀ ps, n.PriorityStack w.heap = (ps, none) →
          ps.map (fun p => (p.ClauseIndex, p.LoopStack))
            = n.priorityEvalStack.map
                (fun a => ((w.heap a).clauseIndex, (w.heap a).loopStack)))
      ∧ ((∀ m ∈ nodes, ∀ w2 : World, keepsScopes w2.heap (m.INode ctx w2).2.heap) →
          keepsScopes w.heap (nodeDocument.Execute { Nodes := nodes } ctx w).2.heap
            ∧ keepsScopes w.heap
                (NodeWrapper.Execute { Endtag := Endtag, nodes := nodes } ctx w).2.heap)
      ∧ ((∀ m ∈ node.wrapper.nodes, ∀ w2 : World,
            keepsScopes w2.heap (m.INode ctx w2).2.heap) →
          keepsScopes w.heap (node.Execute ctx w).2.heap) := by
  refine ⟨Evaluate_keeps pe ctx, Evaluate_keeps pe ctx, EvaluateAll_keeps pe calls, ?_, ?_, ?_⟩
  · intro ps hps
    have hall : ∀ p ∈ n.priorityEvalStack, (w.heap p).evaluated = true := by
      intro p hp
      cases hpe : (w.heap p).evaluated with
      | true => rfl
      | false =>
        obtain ⟨pre, q, post, hl, hpre, hq⟩ :=
          exists_first_unevaluated w.heap _ ⟨p, hp, hpe⟩
        unfold nodeStateful.PriorityStack at hps
        rw [hl, PriorityStack_loop_unevaluated w.heap pre q post hpre hq] at hps
        cases hps
    unfold nodeStateful.PriorityStack at hps
    rw [PriorityStack_loop_evaluated w.heap _ hall] at hps
    simp only [Prod.mk.injEq, and_true] at hps
    rw [← hps]
    simp [priorityEvaluator.snapshot, Function.comp_def]
  · intro hn
    refine ⟨doc_loop_keeps ctx nodes w hn, ?_⟩
    unfold NodeWrapper.Execute
    rw [wrapper_loop_eq_doc_loop]
    exact doc_loop_keeps ctx nodes w hn
  · intro hn
    unfold tagPriorityNode.Execute
    have hk := keepsScopes_Evaluate w.heap node.priorityEvaluator ctx
    rcases hE : (w.heap node.priorityEvaluator).Evaluate ctx with ⟨pe2, oe⟩
    rw [hE] at hk
    cases oe with
    | some err => exact hk
    | none =>
      simp only
      unfold NodeWrapper.Execute
      rw [wrapper_loop_eq_doc_loop]
      exact keepsScopes_trans _ _ _ hk (doc_loop_keeps ctx _ _ hn)

/-- C16 on the scope around the text `A` over a new evaluator: after the scope has run,
every evaluator has the clause index and loop-id list it had before. -/
theorem render_keeps_clause_and_loops_witness :
    keepsScopes (worldBuffered (fun _ => evaluatorNew)).heap
      (scopeNode.Execute ctxNoLoop (worldBuffered (fun _ => evaluatorNew))).2.heap :=
  (render_keeps_clause_and_loops evaluatorNew ctxNoLoop [] [] (worldBuffered (fun _ => evaluatorNew))
    "" scopeNode nodeTextA).2.2.2.2.2
    (by
      intro m hm w2
      have hm2 : m = { INode := textNode "A", priorityEvalStack := [0] } := by
        simpa [scopeNode] using hm
      subst hm2
      exact keepsScopes_refl _)

/-! ### tagPriorityNode.Execute over expressions with effects -/

theorem Effectful.World_update_self_ext {σ : Type} (w : Effectful.World σ) (a : Nat) (s2 : σ) :
    ({ w with heap := Function.update w.heap a (w.heap a), ext := s2 } : Effectful.World σ)
      = { w with ext := s2 } := by
  rw [Function.update_eq_self]

theorem Effectful.Evaluate_of_expr_error {σ : Type} (pe : Effectful.priorityEvaluator σ)
    (ctx : ExecutionContext) (s s2 : σ) (e : Error) (h : pe.evaluator ctx s = (.error e, s2)) :
    pe.Evaluate ctx s = ((pe, some e), s2) := by
  simp [Effectful.priorityEvaluator.Evaluate, h]

theorem Effectful.Evaluate_of_expr_ok {σ : Type} (pe : Effectful.priorityEvaluator σ)
    (ctx : ExecutionContext) (s s2 : σ) (v : Value) (h : pe.evaluator ctx s = (.ok v, s2)) :
    pe.Evaluate ctx s = (({ pe with priority := v.Float, evaluated := true }, none), s2) := by
  simp [Effectful.priorityEvaluator.Evaluate, h]

/-- C15: over expressions whose evaluation changes a state, `tagPriorityNode.Execute`
evaluates the scope's expression exactly once, on the incoming state, before any body
node executes. `Evaluate` runs the expression once and leaves the state the expression
left. When the expression fails with `e`, `Execute` returns `e` itself; the writer
(chunks, priorities, tracking index) and the evaluators are unchanged and the state is
the one left by that single evaluation, whatever the body is, so no body node ran. When
it succeeds, the result of `Execute` is the result of the body's `Execute` started from
the untouched writer, the evaluator holding the value, and the state left by that
single evaluation; nothing is evaluated by `Execute` itself afterwards. -/
theorem tagPriorityNode_Execute_once {σ : Type} (node : Effectful.tagPriorityNode σ)
    (ctx : ExecutionContext) (w : Effectful.World σ) :
    (((w.heap node.priorityEvaluator).Evaluate ctx w.ext).2
        = ((w.heap node.priorityEvaluator).evaluator ctx w.ext).2)
      ∧ (∀ e s2, (w.heap node.priorityEvaluator).evaluator ctx w.ext = (.error e, s2) →
          node.Execute ctx w = (.err e, { w with ext := s2 })
            ∧ ∀ wrapper2,
                ({ node with wrapper := wrapper2 } : Effectful.tagPriorityNode σ).Execute ctx w
                  = (.err e, { w with ext := s2 }))
      ∧ (∀ v s2, (w.heap node.priorityEvaluator).evaluator ctx w.ext = (.ok v, s2) →
          node.Execute ctx w
            = node.wrapper.Execute ctx
                { heap := Function.update w.heap node.priorityEvaluator
                    { w.heap node.priorityEvaluator with
                      priority := v.Float, evaluated := true },
                  writer := w.writer,
                  ext := s2 }) := by
  have herr : ∀ (nd : Effectful.tagPriorityNode σ) e s2,
      nd.priorityEvaluator = node.priorityEvaluator →
      (w.heap node.priorityEvaluator).evaluator ctx w.ext = (.error e, s2) →
      nd.Execute ctx w = (.err e, { w with ext := s2 }) := by
    intro nd e s2 hnd he
    unfold Effectful.tagPriorityNode.Execute
    rw [hnd, Effectful.Evaluate_of_expr_error _ ctx w.ext s2 e he]
    dsimp only
    rw [Effectful.World_update_self_ext]
  refine ⟨?_, ?_, ?_⟩
  · unfold Effectful.priorityEvaluator.Evaluate
    rcases (w.heap node.priorityEvaluator).evaluator ctx w.ext with ⟨r, s2⟩
    cases r <;> rfl
  · intro e s2 he
    exact ⟨herr node e s2 rfl he, fun wrapper2 => herr _ e s2 rfl he⟩
  · intro v s2 hv
    unfold Effectful.tagPriorityNode.Execute
    rw [Effectful.Evaluate_of_expr_ok _ ctx w.ext s2 v hv]

/-- C15 with expressions that count their evaluations, starting from count `0`. Over the
failing expression the scope returns the expression's error, the count is `1` and nothing
was written. Over the constant `5` the scope succeeds, the body node wrote the count it
saw, `1`, in a chunk carrying the value `5`, and the final count is `1`. -/
theorem tagPriorityNode_Execute_once_witness :
    (Effectful.scopeNode.Execute ctxNoLoop
        (Effectful.worldBuffered Effectful.failingCountingExpr)).1
        = .err { Sender := "execution", OrigError := "unknown variable" }
      ∧ (Effectful.scopeNode.Execute ctxNoLoop
          (Effectful.worldBuffered Effectful.failingCountingExpr)).2.ext = 1
      ∧ (Effectful.scopeNode.Execute ctxNoLoop
          (Effectful.worldBuffered Effectful.failingCountingExpr)).2.writer
          = .buffered templateWriterBuffer.fresh
      ∧ (Effectful.scopeNode.Execute ctxNoLoop
          (Effectful.worldBuffered (Effectful.countingExpr 5))).1 = .nil
      ∧ (Effectful.scopeNode.Execute ctxNoLoop
          (Effectful.worldBuffered (Effectful.countingExpr 5))).2.ext = 1
      ∧ (Effectful.scopeNode.Execute ctxNoLoop
          (Effectful.worldBuffered (Effectful.countingExpr 5))).2.writer.Chunks
          = [{ Value := "1",
               Priorities := [{ Value := ⟨5⟩, ClauseIndex := 0, LoopStack := none }],
               TrackingIndex := { Index := 0, Set := false } }] :=
  ⟨congrArg Prod.fst
      ((tagPriorityNode_Execute_once Effectful.scopeNode ctxNoLoop
        (Effectful.worldBuffered Effectful.failingCountingExpr)).2.1
        { Sender := "execution", OrigError := "unknown variable" } 1 rfl).1,
   congrArg (fun r => r.2.ext)
      ((tagPriorityNode_Execute_once Effectful.scopeNode ctxNoLoop
        (Effectful.worldBuffered Effectful.failingCountingExpr)).2.1
        { Sender := "execution", OrigError := "unknown variable" } 1 rfl).1,
   congrArg (fun r => r.2.writer)
      ((tagPriorityNode_Execute_once Effectful.scopeNode ctxNoLoop
        (Effectful.worldBuffered Effectful.failingCountingExpr)).2.1
        { Sender := "execution", OrigError := "unknown variable" } 1 rfl).1,
   by decide, by decide, by decide⟩

/-! ### Expressions without effects as a special case -/

theorem lower_lift_world (w : World) :
    Effectful.lowerWorld (Effectful.liftWorld w) = w := rfl

theorem lift_PriorityStack_loop (heap : Heap) (l : List Nat) :
    Effectful.PriorityStack.loop (fun a => Effectful.liftEvaluator (heap a)) l
      = PriorityStack.loop heap l := by
  induction l with
  | nil => rfl
  | cons p rest ih =>
    rw [Effectful.PriorityStack.loop, PriorityStack.loop, ih]
    rfl

theorem lift_SetChunkContext (w : TemplateWriter) (heap : Heap)
    (ctx : ExecutionContext) (n : nodeStateful) :
    Effectful.TemplateWriter.SetChunkContext w (fun a => Effectful.liftEvaluator (heap a)) ctx
        (Effectful.liftNode n)
      = w.SetChunkContext heap ctx n := by
  unfold Effectful.TemplateWriter.SetChunkContext Effectful.chunkWriter.SetChunkContext
    Effectful.nodeStateful.PriorityStack
  rw [show (Effectful.liftNode n).priorityEvalStack = n.priorityEvalStack from rfl,
    lift_PriorityStack_loop]
  rfl

theorem lift_wrapper_loop (ctx : ExecutionContext) (nodes : List nodeStateful)
    (w : World) :
    Effectful.NodeWrapper.Execute.loop ctx (nodes.map Effectful.liftNode)
        (Effectful.liftWorld w)
      = ((NodeWrapper.Execute.loop ctx nodes w).1,
         Effectful.liftWorld (NodeWrapper.Execute.loop ctx nodes w).2) := by
  induction nodes generalizing w with
  | nil => rfl
  | cons n rest ih =>
    rw [List.map_cons, Effectful.NodeWrapper.Execute.loop, NodeWrapper.Execute.loop]
    have hS := lift_SetChunkContext w.writer w.heap ctx n
    have hS2 : Effectful.TemplateWriter.SetChunkContext (Effectful.liftWorld w).writer
        (Effectful.liftWorld w).heap ctx (Effectful.liftNode n)
        = w.writer.SetChunkContext w.heap ctx n := hS
    rw [hS2]
    rcases w.writer.SetChunkContext w.heap ctx n with ⟨o, wr⟩
    cases o with
    | nil =>
      dsimp only
      have hN : (Effectful.liftNode n).INode ctx
          { Effectful.liftWorld w with writer := wr }
          = ((n.INode ctx { w with writer := wr }).1,
             Effectful.liftWorld (n.INode ctx { w with writer := wr }).2) := rfl
      rw [hN]
      rcases n.INode ctx { w with writer := wr } with ⟨o2, w2⟩
      cases o2 with
      | nil => exact ih w2
      | err e => rfl
      | panicked m => rfl
    | err e => rfl
    | panicked m => rfl

theorem lift_heap_update (heap : Heap) (p : Nat) (pe : priorityEvaluator) :
    Function.update (fun a => Effectful.liftEvaluator (heap a)) p (Effectful.liftEvaluator pe)
      = fun a => Effectful.liftEvaluator (Function.update heap p pe a) := by
  funext a
  by_cases h : a = p
  · subst h
    simp
  · simp [Function.update_noteq h]

theorem liftWorld_update (w : World) (p : Nat) (pe : priorityEvaluator) :
    ({ heap := Function.update (fun a => Effectful.liftEvaluator (w.heap a)) p
                 (Effectful.liftEvaluator pe),
       writer := w.writer,
       ext := () } : Effectful.World Unit)
      = Effectful.liftWorld { heap := Function.update w.heap p pe, writer := w.writer } := by
  rw [lift_heap_update]
  rfl

/-- Expressions without effects are the special case of the trivial state: lifted to it,
a priority node executes as `tagPriorityNode.Execute` does on the evaluators with
expressions of type `IEvaluator`. -/
theorem lift_tagPriorityNode_Execute (node : tagPriorityNode)
    (ctx : ExecutionContext) (w : World) :
    (Effectful.liftPriorityNode node).Execute ctx (Effectful.liftWorld w)
      = ((node.Execute ctx w).1, Effectful.liftWorld (node.Execute ctx w).2) := by
  unfold Effectful.tagPriorityNode.Execute tagPriorityNode.Execute
  have hE : (Effectful.liftWorld w).heap (Effectful.liftPriorityNode node).priorityEvaluator
      = Effectful.liftEvaluator (w.heap node.priorityEvaluator) := rfl
  rw [hE]
  cases hx : (w.heap node.priorityEvaluator).evaluator ctx with
  | error e =>
    have h1 : (Effectful.liftEvaluator (w.heap node.priorityEvaluator)).evaluator ctx
        (Effectful.liftWorld w).ext = (.error e, ()) := by
      show ((w.heap node.priorityEvaluator).evaluator ctx, ()) = _
      rw [hx]
    rw [Effectful.Evaluate_of_expr_error _ ctx _ () e h1, Pongo2.Evaluate_of_error _ ctx e hx]
    exact congrArg (Prod.mk (Outcome.err e))
      (liftWorld_update w node.priorityEvaluator (w.heap node.priorityEvaluator))
  | ok v =>
    have h1 : (Effectful.liftEvaluator (w.heap node.priorityEvaluator)).evaluator ctx
        (Effectful.liftWorld w).ext = (.ok v, ()) := by
      show ((w.heap node.priorityEvaluator).evaluator ctx, ()) = _
      rw [hx]
    rw [Effectful.Evaluate_of_expr_ok _ ctx _ () v h1, Pongo2.Evaluate_of_ok _ ctx v hx]
    have hU := liftWorld_update w node.priorityEvaluator
      { w.heap node.priorityEvaluator with priority := v.Float, evaluated := true }
    have hW := lift_wrapper_loop ctx node.wrapper.nodes
      { heap := Function.update w.heap node.priorityEvaluator
          { w.heap node.priorityEvaluator with priority := v.Float, evaluated := true },
        writer := w.writer }
    rw [← hU] at hW
    exact hW

end Pongo2
